import Mathlib

/-!
Shallow embedding of the mdx-embeddings incremental synchronization engine.

The definitions below are translated from the TypeScript sources:
  * src/markdown.ts   : createMarkdownSource, loadMarkdownSource, splitTreeBy, parseHeading
  * src/walk.ts       : walk
  * src/generate-embeddings2.ts : generateEmbeddings and its per-source loop
  * src/db/migrations/0000_swift_iceman.sql : the two-table schema and the
    page_sections.page_id -> pages.id foreign key (ON DELETE NO ACTION)

External collaborators are modelled as explicit function parameters of a
run configuration: the filesystem (readFile), the content hash
(createHash("sha256")....digest("base64")), the mdast parser
(fromMarkdown), the markdown printer (toMarkdown), the base slug
function of github-slugger, and the OpenAI embedding endpoint.
UUIDs and timestamps are modelled by a monotone counter threaded through
the run state; Postgres statements are modelled on lists of rows,
including the statement-level failure of a DELETE that would violate the
NO ACTION foreign key.
-/

namespace Mdx

/-! ### mdast tree model

A markdown AST node, as seen by splitTreeBy and the section mapper: only
the node type tag (node.type) and its flattened text (mdast-util-to-string)
are inspected by the code under verification. -/

structure MNode where
  nodeType : String
  nodeText : String
deriving DecidableEq, Repr

/-- Node types removed from the tree by the unist-util-filter call in
loadMarkdownSource (markdown.ts line 127). -/
def mdxNodeTypes : List String :=
  ["mdxjsEsm", "mdxJsxFlowElement", "mdxJsxTextElement", "mdxFlowExpression", "mdxTextExpression"]

/-- unist-util-filter returns null only when the root node itself is
excluded; the root has type "root", which is never an MDX node type, so
the result is always some. The Option mirrors the null check at
markdown.ts line 130. -/
def filterMdxNodes (children : List MNode) : Option (List MNode) :=
  some (children.filter (fun n => !(mdxNodeTypes.contains n.nodeType)))

/-- One step of the reduce in splitTreeBy (markdown.ts lines 70-82): a
node starts a new tree when there is no last tree yet or when it
satisfies the predicate; otherwise it is pushed onto the last tree. -/
def splitStep (p : MNode → Bool) (trees : List (List MNode)) (node : MNode) : List (List MNode) :=
  match trees.getLast? with
  | none => [[node]]
  | some lastTree =>
    if p node then trees ++ [[node]]
    else trees.dropLast ++ [lastTree ++ [node]]

/-- splitTreeBy (markdown.ts lines 70-82): split a root tree's children
into consecutive groups, starting a new group at each node satisfying
the predicate. -/
def splitTreeBy (p : MNode → Bool) (children : List MNode) : List (List MNode) :=
  children.foldl (splitStep p) []

/-- Indices where a custom-anchor opener "[#" occurs and is followed by a
closing bracket, the positions at which the regex (.*) *\[#(.*)\] of
parseHeading can place its anchor group. -/
def headingAnchorIdxs (cs : List Char) : List Nat :=
  (List.range cs.length).filter
    (fun i => ['[', '#'].isPrefixOf (cs.drop i) && (cs.drop (i + 2)).contains ']')

/-- parseHeading (markdown.ts lines 85-97): split a heading into its text
and an optional custom anchor. The greedy first group of the regex picks
the last viable "[#" opener and the greedy second group extends to the
last closing bracket after it. -/
def parseHeading (s : String) : String × Option String :=
  let cs := s.toList
  match (headingAnchorIdxs cs).getLast? with
  | none => (s, none)
  | some i =>
    let after := cs.drop (i + 2)
    let j := (((List.range after.length).filter (fun k => after.getD k ' ' == ']')).getLast?).getD 0
    ((cs.take i).asString, some ((after.take j).asString))

/-! ### github-slugger

The slugger state is the occurrences map of github-slugger: an
association list from already-produced slugs to their repetition
counters. The base slug function (character-level slugification) is an
external parameter. -/

abbrev SluggerOcc := List (String × Nat)

def occKeys (occ : SluggerOcc) : List String := occ.map (·.1)

def occLookup (occ : SluggerOcc) (k : String) : Option Nat :=
  (occ.find? (fun q => decide (q.1 = k))).map (·.2)

/-- Overwrite the counter stored for an existing key. -/
def occBump (occ : SluggerOcc) (k : String) (v : Nat) : SluggerOcc :=
  occ.map (fun q => if q.1 = k then (q.1, v) else q)

/-- The candidate produced by the while loop of github-slugger for
counter value m: originalSlug + "-" + m. -/
def slugCandidate (orig : String) (m : Nat) : String := orig ++ "-" ++ Nat.repr m

/-- The while loop of github-slugger: starting from counter c, keep
incrementing while the candidate is still a key of the occurrences map.
The fuel argument bounds the search; fuel = number of keys + 1 always
suffices (lemma findFreeSuffix_free). -/
def findFreeSuffix (keys : List String) (orig : String) : Nat → Nat → Nat
  | c, 0 => c + 1
  | c, fuel + 1 =>
    if keys.contains (slugCandidate orig (c + 1)) then findFreeSuffix keys orig (c + 1) fuel
    else c + 1

/-- slug(value) of github-slugger: slugify, then de-duplicate against the
occurrences map, then record the returned slug with counter 0. -/
def sluggerSlug (slugify : String → String) (occ : SluggerOcc) (value : String) :
    String × SluggerOcc :=
  let orig := slugify value
  match occLookup occ orig with
  | none => (orig, occ ++ [(orig, 0)])
  | some c0 =>
    let m := findFreeSuffix (occKeys occ) orig c0 (occ.length + 1)
    (slugCandidate orig m, occBump occ orig m ++ [(slugCandidate orig m, 0)])

/-! ### Injectivity of the decimal numeral rendering

Needed to show that the suffixed candidates of the slugger are pairwise
distinct strings. We decode the digit string back to the number. -/

def decodeDigits (l : List Char) : Nat :=
  l.foldl (fun a c => 10 * a + (c.toNat - 48)) 0

theorem toDigitsCore_append10 (fuel : Nat) :
    ∀ (n : Nat) (ds : List Char),
      Nat.toDigitsCore 10 fuel n ds = Nat.toDigitsCore 10 fuel n [] ++ ds := by
  induction fuel with
  | zero => intro n ds; simp [Nat.toDigitsCore]
  | succ fuel ih =>
    intro n ds
    simp only [Nat.toDigitsCore]
    by_cases h : n / 10 = 0
    · simp [h]
    · simp only [h, if_false]
      rw [ih (n / 10) (Nat.digitChar (n % 10) :: ds), ih (n / 10) [Nat.digitChar (n % 10)]]
      simp

theorem digitChar_decode (d : Nat) (hd : d < 10) : (Nat.digitChar d).toNat - 48 = d := by
  interval_cases d <;> rfl

theorem decodeDigits_append_digit (l : List Char) (c : Char) :
    decodeDigits (l ++ [c]) = 10 * decodeDigits l + (c.toNat - 48) := by
  simp [decodeDigits, List.foldl_append]

theorem toDigitsCore_decode (fuel : Nat) :
    ∀ n : Nat, n < 10 ^ fuel → decodeDigits (Nat.toDigitsCore 10 fuel n []) = n := by
  induction fuel with
  | zero => intro n hn; interval_cases n; rfl
  | succ fuel ih =>
    intro n hn
    simp only [Nat.toDigitsCore]
    by_cases h : n / 10 = 0
    · have hn10 : n < 10 := by
        by_contra hge
        have : 0 < n / 10 := Nat.div_pos (by omega) (by norm_num)
        omega
      simp only [h, if_true, decodeDigits, List.foldl]
      rw [digitChar_decode (n % 10) (Nat.mod_lt _ (by norm_num))]
      simp [Nat.mod_eq_of_lt hn10]
    · simp only [h, if_false]
      rw [toDigitsCore_append10]
      rw [decodeDigits_append_digit]
      have hdiv : n / 10 < 10 ^ fuel := by
        rw [Nat.div_lt_iff_lt_mul (by norm_num : 0 < 10)]
        calc n < 10 ^ (fuel + 1) := hn
        _ = 10 ^ fuel * 10 := by ring
      rw [ih (n / 10) hdiv]
      rw [digitChar_decode (n % 10) (Nat.mod_lt _ (by norm_num))]
      exact Nat.div_add_mod n 10 ▸ by ring_nf; omega

theorem decodeDigits_repr (n : Nat) : decodeDigits (Nat.repr n).data = n := by
  show decodeDigits ((Nat.toDigits 10 n).asString).data = n
  have : ((Nat.toDigits 10 n).asString).data = Nat.toDigits 10 n := rfl
  rw [this]
  show decodeDigits (Nat.toDigitsCore 10 (n + 1) n []) = n
  exact toDigitsCore_decode (n + 1) n
    (lt_of_lt_of_le (Nat.lt_pow_self (by norm_num) n)
      (Nat.pow_le_pow_right (by norm_num) (Nat.le_succ n)))

theorem natRepr_injective : Function.Injective Nat.repr := by
  intro a b h
  have := congrArg (fun s : String => decodeDigits s.data) h
  simpa [decodeDigits_repr] using this

theorem string_append_data (a b : String) : (a ++ b).data = a.data ++ b.data := rfl

theorem slugCandidate_injective (orig : String) : Function.Injective (slugCandidate orig) := by
  intro a b h
  apply natRepr_injective
  have hd := congrArg String.data h
  simp only [slugCandidate, string_append_data] at hd
  have := List.append_cancel_left hd
  exact String.ext this

theorem list_contains_mem (l : List String) (a : String) : l.contains a = true ↔ a ∈ l := by
  simp [List.contains_eq_any_beq, List.any_eq_true]

theorem findFreeSuffix_spec (keys : List String) (orig : String) :
    ∀ fuel c,
      slugCandidate orig (findFreeSuffix keys orig c fuel) ∉ keys ∨
      (∀ i, 1 ≤ i → i ≤ fuel + 1 → slugCandidate orig (c + i) ∈ keys) := by
  intro fuel
  induction fuel with
  | zero =>
    intro c
    by_cases hmem : slugCandidate orig (c + 1) ∈ keys
    · right
      intro i h1 h2
      have : i = 1 := by omega
      subst this
      exact hmem
    · left
      show slugCandidate orig (findFreeSuffix keys orig c 0) ∉ keys
      simp only [findFreeSuffix]
      exact hmem
  | succ fuel ih =>
    intro c
    by_cases hc : keys.contains (slugCandidate orig (c + 1)) = true
    · have hstep : findFreeSuffix keys orig c (fuel + 1) = findFreeSuffix keys orig (c + 1) fuel := by
        simp only [findFreeSuffix]
        rw [if_pos hc]
      rcases ih (c + 1) with h | h
      · left; rw [hstep]; exact h
      · right
        intro i h1 h2
        rcases Nat.eq_or_lt_of_le h1 with h1' | h1'
        · have : i = 1 := h1'.symm
          subst this
          exact (list_contains_mem keys _).mp hc
        · have : c + i = (c + 1) + (i - 1) := by omega
          rw [this]
          exact h (i - 1) (by omega) (by omega)
    · left
      have hstep : findFreeSuffix keys orig c (fuel + 1) = c + 1 := by
        simp only [findFreeSuffix]
        rw [if_neg hc]
      rw [hstep]
      intro hmem
      exact hc ((list_contains_mem keys _).mpr hmem)

theorem findFreeSuffix_free (keys : List String) (orig : String) (c : Nat) :
    slugCandidate orig (findFreeSuffix keys orig c (keys.length + 1)) ∉ keys := by
  rcases findFreeSuffix_spec keys orig (keys.length + 1) c with h | h
  · exact h
  · exfalso
    have hinj : Function.Injective (fun i : Nat => slugCandidate orig (c + 1 + i)) := by
      intro a b hab
      have := slugCandidate_injective orig hab
      omega
    have hnd : ((List.range (keys.length + 2)).map (fun i => slugCandidate orig (c + 1 + i))).Nodup :=
      (List.nodup_range _).map hinj
    have hsub : ((List.range (keys.length + 2)).map (fun i => slugCandidate orig (c + 1 + i))).toFinset
        ⊆ keys.toFinset := by
      intro x hx
      rw [List.mem_toFinset] at hx ⊢
      rcases List.mem_map.mp hx with ⟨i, hi, rfl⟩
      have : c + 1 + i = c + (i + 1) := by omega
      rw [this]
      exact h (i + 1) (by omega) (by
        have := List.mem_range.mp hi
        omega)
    have hcard := Finset.card_le_card hsub
    rw [List.toFinset_card_of_nodup hnd] at hcard
    have := List.toFinset_card_le keys
    simp at hcard
    omega

theorem occKeys_occBump (occ : SluggerOcc) (k : String) (v : Nat) :
    occKeys (occBump occ k v) = occKeys occ := by
  induction occ with
  | nil => rfl
  | cons q occ ih =>
    simp only [occBump, occKeys, List.map] at *
    by_cases h : q.1 = k <;> simp [h, ih]

theorem occKeys_append (a b : SluggerOcc) : occKeys (a ++ b) = occKeys a ++ occKeys b := by
  simp [occKeys]

theorem occLookup_none_not_mem (occ : SluggerOcc) (k : String) (h : occLookup occ k = none) :
    k ∉ occKeys occ := by
  intro hmem
  rcases List.mem_map.mp hmem with ⟨q, hq, hqk⟩
  have hf : occ.find? (fun q => decide (q.1 = k)) = none := by
    cases hfind : occ.find? (fun q => decide (q.1 = k)) with
    | none => rfl
    | some v => simp [occLookup, hfind] at h
  have := List.find?_eq_none.mp hf q hq
  simp [hqk] at this

/-- Each slugger call returns a slug that is not among the keys of the
occurrences map, and appends exactly that slug to the keys. -/
theorem sluggerSlug_fresh (slugify : String → String) (occ : SluggerOcc) (value : String) :
    (sluggerSlug slugify occ value).1 ∉ occKeys occ ∧
    occKeys (sluggerSlug slugify occ value).2 = occKeys occ ++ [(sluggerSlug slugify occ value).1] := by
  cases hlk : occLookup occ (slugify value) with
  | none =>
    have hred : sluggerSlug slugify occ value = (slugify value, occ ++ [(slugify value, 0)]) := by
      simp only [sluggerSlug, hlk]
    rw [hred]
    refine ⟨occLookup_none_not_mem _ _ hlk, ?_⟩
    simp [occKeys_append, occKeys]
  | some c0 =>
    have hred : sluggerSlug slugify occ value =
        (slugCandidate (slugify value) (findFreeSuffix (occKeys occ) (slugify value) c0 (occ.length + 1)),
         occBump occ (slugify value) (findFreeSuffix (occKeys occ) (slugify value) c0 (occ.length + 1)) ++
           [(slugCandidate (slugify value) (findFreeSuffix (occKeys occ) (slugify value) c0 (occ.length + 1)), 0)]) := by
      simp only [sluggerSlug, hlk]
    rw [hred]
    constructor
    · have := findFreeSuffix_free (occKeys occ) (slugify value) c0
      have hlen : (occKeys occ).length = occ.length := by simp [occKeys]
      rw [hlen] at this
      exact this
    · rw [occKeys_append, occKeys_occBump]
      simp [occKeys]

/-! ### Source data and parsed content -/

/-- SourceData (lib/types.ts): the descriptor produced by
createMarkdownSource and consumed by loadMarkdownSource and the engine
loop. The call sites pass (entry.path, entry.parentPath), so the
descriptor carries the stripped path and optional stripped parent path. -/
structure SourceData where
  path : String
  parentPath : Option String
deriving DecidableEq, Repr

/-- One section of a parsed document (lib/types.ts Section). -/
structure SectionData where
  content : String
  heading : Option String
  slug : Option String
deriving DecidableEq, Repr

/-- ProcessedMdx (lib/types.ts): result of loadMarkdownSource. The meta
export is opaque structured data; it is modelled as a string. -/
structure ProcessedMdx where
  checksum : String
  meta : String
  sections : List SectionData
deriving DecidableEq, Repr

/-- The run configuration: the caller-supplied force-refresh flag
together with the external collaborators, each modelled as a pure
function. fs models fs/promises readFile (none = the read throws);
hash models createHash("sha256").update(content).digest("base64");
parse models fromMarkdown (the children of the produced root);
toMd models toMarkdown on a root holding the given children;
metaOf models extractMetaExport + JSON round-trip;
slugify models the character-level slug function of github-slugger;
embed models openai.createEmbedding on the normalized input, returning
the embedding vector and total token count, or none when the call fails
or returns a non-200 status. -/
structure RunCfg where
  shouldRefreshAllPages : Bool
  fs : String → Option String
  hash : String → String
  parse : String → List MNode
  toMd : List MNode → String
  metaOf : String → String
  slugify : String → String
  embed : String → Option (List Int × Nat)

/-- The map over section trees at markdown.ts lines 145-169: a group
whose first node is a heading yields a section carrying the parsed
heading and a de-duplicated slug; any other group yields a section with
no heading and no slug. The slugger occurrence map is threaded through
the calls in order. Groups produced by splitTreeBy are never empty; the
empty case mirrors tree.children[0] being absent. -/
def mapSectionTrees (cfg : RunCfg) (occ : SluggerOcc) : List (List MNode) → List SectionData
  | [] => []
  | t :: ts =>
    match t with
    | [] => { content := cfg.toMd [], heading := none, slug := none } :: mapSectionTrees cfg occ ts
    | firstNode :: _ =>
      if firstNode.nodeType = "heading" then
        let hp := parseHeading firstNode.nodeText
        let sres := sluggerSlug cfg.slugify occ (hp.2.getD hp.1)
        { content := cfg.toMd t, heading := some hp.1, slug := some sres.1 } ::
          mapSectionTrees cfg sres.2 ts
      else
        { content := cfg.toMd t, heading := none, slug := none } :: mapSectionTrees cfg occ ts

/-- loadMarkdownSource (markdown.ts lines 110-177): read the file at
sourceData.path, checksum the content, extract the meta export, filter
MDX nodes out of the tree, split at headings and map each group to a
section, with a slugger created fresh for this document. Returns none
when the file read throws. -/
def loadMarkdownSource (cfg : RunCfg) (sourceData : SourceData) : Option ProcessedMdx :=
  match cfg.fs sourceData.path with
  | none => none
  | some content =>
    let checksum := cfg.hash content
    let meta := cfg.metaOf content
    match filterMdxNodes (cfg.parse content) with
    | none => some { checksum := checksum, meta := meta, sections := [] }
    | some children =>
      let sectionTrees := splitTreeBy (fun n => decide (n.nodeType = "heading")) children
      some { checksum := checksum, meta := meta,
             sections := mapSectionTrees cfg [] sectionTrees }

/-- Character-list versions of the string prefix and suffix tests, as
the JS string methods used by the source. -/
def strBeginsWith (s pre : String) : Bool := pre.data.isPrefixOf s.data

def strFinishesWith (s suf : String) : Bool := suf.data.isSuffixOf s.data

def strDropLeft (s : String) (n : Nat) : String := (s.data.drop n).asString

def strDropRight (s : String) (n : Nat) : String :=
  (s.data.take (s.data.length - n)).asString

/-- The replace(/^pages/, "") step of createMarkdownSource. -/
def stripPages (p : String) : String :=
  if strBeginsWith p "pages" then strDropLeft p 5 else p

/-- The replace(/\.mdx?$/, "") step of createMarkdownSource. -/
def stripMdExt (p : String) : String :=
  if strFinishesWith p ".mdx" then strDropRight p 4
  else if strFinishesWith p ".md" then strDropRight p 3
  else p

/-- createMarkdownSource (markdown.ts lines 100-107, applied as at
generate-embeddings2.ts line 18 to (entry.path, entry.parentPath)):
strip the pages prefix and markdown extension from the file path and
from the parent file path. -/
def createMarkdownSource (filePath : String) (parentFilePath : Option String) : SourceData :=
  { path := stripMdExt (stripPages filePath),
    parentPath := parentFilePath.map (fun q => stripMdExt (stripPages q)) }

/-! ### Tree enumeration (walk.ts) -/

/-- A filesystem subtree: what readdir/stat reveal to walk. -/
inductive FsTree where
  | file (name : String)
  | dir (name : String) (children : List FsTree)

def fsName : FsTree → String
  | .file n => n
  | .dir n _ => n

/-- One enumerated entry: full path plus the inherited parent path. -/
structure WalkEntry where
  path : String
  parentPath : Option String
deriving DecidableEq, Repr

def pathJoin (a b : String) : String := a ++ "/" ++ b

mutual

/-- The recursive body of walk (walk.ts lines 10-32): a directory entry
checks whether its sibling listing contains basename(entryPath) + ".mdx"
and, if so, passes join(entryPath, documentPath) as the parent path to
its children; a file entry is reported with the inherited parent path. -/
def walkEntry (dirPath : String) (siblings : List String) (parentPath : Option String) :
    FsTree → List WalkEntry
  | .file n => [{ path := pathJoin dirPath n, parentPath := parentPath }]
  | .dir n children =>
    let entryPath := pathJoin dirPath n
    let documentPath := n ++ ".mdx"
    let nextPath :=
      if siblings.contains documentPath then some (pathJoin entryPath documentPath)
      else parentPath
    walkEntries entryPath (children.map fsName) nextPath children

def walkEntries (dirPath : String) (siblings : List String) (parentPath : Option String) :
    List FsTree → List WalkEntry
  | [] => []
  | e :: rest =>
    walkEntry dirPath siblings parentPath e ++ walkEntries dirPath siblings parentPath rest

end

/-- Lexicographic codepoint comparison of character lists; the
deterministic total order underlying the localeCompare sort. -/
def lexLe : List Char → List Char → Bool
  | [], _ => true
  | _ :: _, [] => false
  | c :: cs, d :: ds =>
    if c.toNat < d.toNat then true
    else if d.toNat < c.toNat then false
    else lexLe cs ds

def pathLe (a b : String) : Bool := lexLe a.data b.data

/-- Stable insertion of an entry into a path-sorted list; models the
deterministic comparator-based sort at walk.ts line 37. -/
def insertByPath (e : WalkEntry) : List WalkEntry → List WalkEntry
  | [] => [e]
  | x :: xs => if pathLe x.path e.path then x :: insertByPath e xs else e :: x :: xs

def sortByPath : List WalkEntry → List WalkEntry
  | [] => []
  | x :: xs => insertByPath x (sortByPath xs)

/-- walk (walk.ts): enumerate the files under a directory, sorted by
path, threading the nearest enclosing index document as parent path. -/
def walk (directory : String) (entries : List FsTree) (parentPath : Option String) :
    List WalkEntry :=
  sortByPath (walkEntries directory (entries.map fsName) parentPath entries)

/-- The filter and map of generateEmbeddingSources
(generate-embeddings2.ts lines 15-20). -/
def ignoredFiles : List String := ["pages/404.mdx"]

def isMarkdownPath (p : String) : Bool := strFinishesWith p ".mdx" || strFinishesWith p ".md"

def generateEmbeddingSources (entries : List WalkEntry) : List SourceData :=
  ((entries.filter (fun e => !(ignoredFiles.contains e.path) && isMarkdownPath e.path)).map
    (fun e => createMarkdownSource e.path e.parentPath))

/-! ### Persisted schema (db/schema.ts, migration 0000_swift_iceman.sql)

UUIDs and timestamps are modelled as naturals drawn from a monotone
counter in the run state, which models the global uniqueness of
randomUUID values across ids and version stamps. -/

structure Page where
  id : Nat
  parent_page_id : Option Nat
  path : String
  parent_path : Option String
  checksum : Option String
  meta : String
  version : Nat
  last_refresh : Nat
deriving DecidableEq, Repr

structure PageSection where
  id : Nat
  page_id : Nat
  slug : Option String
  heading : Option String
  content : String
  token_count : Nat
  embedding : List Int
deriving DecidableEq, Repr

/-- Console output of the run; error entries carry the tag and the
source path included in the logged message. -/
inductive LogEntry where
  | infoEntry (tag : String) (path : String)
  | errorEntry (tag : String) (path : String)
deriving DecidableEq, Repr

/-- Database plus process state threaded through a run: the two tables,
the UUID counter, and the console log. -/
structure St where
  pages : List Page
  pageSections : List PageSection
  nextId : Nat
  log : List LogEntry
deriving DecidableEq, Repr

/-- SELECT ... FROM pages WHERE path = $1 LIMIT 1 (no ORDER BY: modelled
as the first row in insertion order). -/
def lookupPageByPath (pages : List Page) (path : String) : Option Page :=
  pages.find? (fun p => decide (p.path = path))

/-- DELETE FROM page_sections WHERE page_id = $1. -/
def deleteSectionsByPageId (st : St) (pid : Nat) : St :=
  { st with pageSections := st.pageSections.filter (fun s => !decide (s.page_id = pid)) }

/-- The skip-path UPDATE (generate-embeddings2.ts lines 67-71): set only
meta, version and last_refresh on the row with the given id. -/
def updatePageSkip (st : St) (pid : Nat) (meta : String) (v d : Nat) : St :=
  { st with pages := st.pages.map (fun p =>
      if p.id = pid then { p with meta := meta, version := v, last_refresh := d } else p) }

/-- UPDATE pages SET checksum = $1 WHERE id = $2 (lines 123-127). -/
def setPageChecksum (st : St) (pid : Nat) (checksum : String) : St :=
  { st with pages := st.pages.map (fun p =>
      if p.id = pid then { p with checksum := some checksum } else p) }

def pushInfo (st : St) (tag path : String) : St :=
  { st with log := st.log ++ [LogEntry.infoEntry tag path] }

def pushError (st : St) (tag path : String) : St :=
  { st with log := st.log ++ [LogEntry.errorEntry tag path] }

/-- The newline normalization content.replace(/\n/g, " ") applied to the
embedding input (line 100). -/
def replaceNewlines (s : String) : String :=
  (s.data.map (fun c => if c = '\n' then ' ' else c)).asString

/-- The per-section loop (lines 99-121): normalize the content, call the
embedding endpoint, and insert the section row; on the first failing
call, stop and report failure, keeping the rows already inserted. -/
def embedSections (cfg : RunCfg) (pid : Nat) : St → List SectionData → St × Bool
  | st, [] => (st, true)
  | st, sec :: rest =>
    match cfg.embed (replaceNewlines sec.content) with
    | none => (st, false)
    | some (vec, tok) =>
      let row : PageSection :=
        { id := st.nextId, page_id := pid, slug := sec.slug, heading := sec.heading,
          content := sec.content, token_count := tok, embedding := vec }
      embedSections cfg pid
        { st with pageSections := st.pageSections ++ [row], nextId := st.nextId + 1 } rest

/-- The SELECT of line 80: first page row whose path equals the source's
parent path (no row matches when the parent path is absent). -/
def parentPageOf (st : St) (src : SourceData) : Option Page :=
  st.pages.find? (fun p => decide (src.parentPath = some p.path))

/-- The row INSERTed at lines 82-95: fresh id, null checksum, current
run version and date, parent fields resolved from the parent lookup. -/
def newPageOf (st : St) (src : SourceData) (pmx : ProcessedMdx) (v d : Nat) : Page :=
  { id := st.nextId, parent_page_id := (parentPageOf st src).map Page.id, path := src.path,
    parent_path := (parentPageOf st src).map Page.path, checksum := none, meta := pmx.meta,
    version := v, last_refresh := d }

def insertNewPage (st : St) (src : SourceData) (pmx : ProcessedMdx) (v d : Nat) : St :=
  pushInfo { st with pages := st.pages ++ [newPageOf st src pmx v d], nextId := st.nextId + 1 }
    "EMBED" src.path

/-- Lines 80-127: look up the parent page by the stripped parent path,
INSERT a fresh page row with a null checksum, embed and insert every
section, and only on full success set the page checksum. -/
def refreshTail (cfg : RunCfg) (v d : Nat) (st : St) (src : SourceData) (pmx : ProcessedMdx) :
    St × Option String :=
  match embedSections cfg st.nextId (insertNewPage st src pmx v d) pmx.sections with
  | (st2, true) => (setPageChecksum st2 st.nextId pmx.checksum, none)
  | (st2, false) => (pushError st2 "EMBED" src.path, some "embedding call failed")

/-- One iteration of the source loop (generate-embeddings2.ts lines
56-131) up to, but not including, the catch handler. The error
component records a thrown exception; the state component keeps every
database effect performed before the throw.

When no page row exists for the path, shouldRefreshExistingPage is true
and line 76 evaluates existingPage.id on undefined, throwing a TypeError
before any statement of the refresh path runs. -/
def processSourceCore (cfg : RunCfg) (v d : Nat) (st : St) (src : SourceData) :
    St × Option String :=
  match loadMarkdownSource cfg src with
  | none => (st, some "load failed")
  | some pmx =>
    match lookupPageByPath st.pages src.path with
    | none => (st, some "TypeError: cannot read id of undefined existingPage")
    | some existingPage =>
      if cfg.shouldRefreshAllPages = false ∧ existingPage.checksum = some pmx.checksum then
        (pushInfo (updatePageSkip st existingPage.id pmx.meta v d) "SKIP" src.path, none)
      else
        refreshTail cfg v d
          (if existingPage.checksum = some pmx.checksum then st
           else pushInfo (deleteSectionsByPageId st existingPage.id) "UPDATE" src.path)
          src pmx

/-- The per-source try/catch (lines 57 and 128-131): an error is logged
with the source path and the loop moves on. -/
def processSource (cfg : RunCfg) (v d : Nat) (st : St) (src : SourceData) : St :=
  match processSourceCore cfg v d st src with
  | (st1, none) => st1
  | (st1, some _) => pushError st1 "PROCESS" src.path

def runLoop (cfg : RunCfg) (v d : Nat) (st : St) (sources : List SourceData) : St :=
  sources.foldl (processSource cfg v d) st

/-- DELETE FROM pages WHERE version <> $1 (line 136). The migration
declares page_sections.page_id REFERENCES pages.id ON DELETE NO ACTION,
so the statement fails, deleting nothing, whenever some section row
still references a page that the delete would remove; the error is
caught by the outer handler and logged as FATAL. -/
def pruneOutdated (v : Nat) (st : St) : St :=
  if st.pages.any (fun p => !decide (p.version = v) &&
      st.pageSections.any (fun s => decide (s.page_id = p.id))) then
    pushError st "FATAL" ""
  else
    { st with pages := st.pages.filter (fun p => decide (p.version = v)) }

/-- Lines 49-53: on a full refresh, DELETE FROM pages runs before DELETE
FROM page_sections. The pages delete fails under the NO ACTION foreign
key whenever any section row references a page row; the error is caught
by the outer handler, aborting the run. -/
def wipeAllPages (st : St) : St × Bool :=
  if st.pages.any (fun p => st.pageSections.any (fun s => decide (s.page_id = p.id))) then
    (pushError st "FATAL" "", false)
  else
    ({ st with pages := [], pageSections := [] }, true)

/-- generateEmbeddings (generate-embeddings2.ts lines 23-149) on an
already-enumerated source list: draw a fresh run version stamp, wipe
everything when the force flag is set, process each source with
per-source error isolation, then prune pages not carrying the current
stamp. -/
def generateEmbeddings (cfg : RunCfg) (d : Nat) (st : St) (sources : List SourceData) : St :=
  let v := st.nextId
  let st0 := { st with nextId := st.nextId + 1 }
  if cfg.shouldRefreshAllPages then
    match wipeAllPages st0 with
    | (st1, false) => st1
    | (st1, true) => pruneOutdated v (runLoop cfg v d st1 sources)
  else
    pruneOutdated v (runLoop cfg v d st0 sources)

/-! ### Concrete run fixtures

Small concrete stores and configurations used to evaluate the engine on
the scenarios fixed by the claims. The hash, parser and embedding
collaborators are instantiated with trivial total functions. -/

def srcA : SourceData := { path := "/a", parentPath := none }

/-- A store page as left by a previous successful run: path "/a",
checksum "old", version stamp 0. -/
def pageA1 : Page :=
  { id := 1, parent_page_id := none, path := "/a", parent_path := none,
    checksum := some "old", meta := "{}", version := 0, last_refresh := 0 }

def emptySt : St := { pages := [], pageSections := [], nextId := 1, log := [] }

/-- Configuration whose source content at "/a" hashes to a value
different from the stored checksum, so the run takes the refresh path. -/
def cfgC2 : RunCfg :=
  { shouldRefreshAllPages := false
    fs := fun p => if p = "/a" then some "bodyA" else none
    hash := fun c => "h-" ++ c
    parse := fun _ => []
    toMd := fun _ => ""
    metaOf := fun _ => "{}"
    slugify := fun s => s
    embed := fun _ => some ([1], 7) }

def stC2 : St := { pages := [pageA1], pageSections := [], nextId := 2, log := [] }

/-- C2: the claim says a Document row is created on the first successful
run over its path and then always updated in place, its id stable until
deletion. On this input the engine instead INSERTs a second row at the
same path with a fresh id (the old row only disappears in the end-of-run
sweep), so the surviving Document id changes from 1 to 3; and on a store
with no row at the path, the per-source processing throws while
dereferencing the missing existing row, logs the error, and creates no
Document at all. -/
theorem c2_document_recreated_not_updated_in_place :
    stC2.pages.map Page.id = [1] ∧ stC2.pages.map Page.path = ["/a"] ∧
    (runLoop cfgC2 2 99 { stC2 with nextId := 3 } [srcA]).pages.map Page.path = ["/a", "/a"] ∧
    (generateEmbeddings cfgC2 99 stC2 [srcA]).pages.map Page.id = [3] ∧
    (generateEmbeddings cfgC2 99 stC2 [srcA]).pages.map Page.path = ["/a"] ∧
    (generateEmbeddings cfgC2 99 emptySt [srcA]).pages = [] ∧
    LogEntry.errorEntry "PROCESS" "/a" ∈ (generateEmbeddings cfgC2 99 emptySt [srcA]).log := by
  decide

/-- Configuration under which the content at "/a" hashes back to the
stored checksum "old", so source "/a" takes the skip path. -/
def cfgSkipA : RunCfg :=
  { cfgC2 with hash := fun c => if c = "bodyA" then "old" else "x" }

def pageB : Page :=
  { id := 2, parent_page_id := none, path := "/b", parent_path := none,
    checksum := some "hb", meta := "{}", version := 0, last_refresh := 0 }

def secB : PageSection :=
  { id := 3, page_id := 2, slug := none, heading := none, content := "sb",
    token_count := 1, embedding := [] }

/-- Store after a first run over sources A and B: both Documents present,
B owning one section. -/
def stC3 : St := { pages := [pageA1, pageB], pageSections := [secB], nextId := 4, log := [] }

/-- C3: the claim says the end-of-run cleanup deletes every Document with
a stale version stamp together with its Sections. The cleanup statement
only deletes pages, and the migration declares the sections foreign key
ON DELETE NO ACTION, so with Document B still owning a section the
DELETE fails and is logged as a fatal error: after a second run over
only A, Document B and its section both still exist. -/
theorem c3_prune_leaves_stale_document_and_sections :
    (generateEmbeddings cfgSkipA 99 stC3 [srcA]).pages.map Page.id = [1, 2] ∧
    pageB ∈ (generateEmbeddings cfgSkipA 99 stC3 [srcA]).pages ∧
    secB ∈ (generateEmbeddings cfgSkipA 99 stC3 [srcA]).pageSections ∧
    LogEntry.errorEntry "FATAL" "" ∈ (generateEmbeddings cfgSkipA 99 stC3 [srcA]).log := by
  decide

def secA : PageSection :=
  { id := 2, page_id := 1, slug := none, heading := none, content := "sa",
    token_count := 1, embedding := [] }

/-- Force-refresh configuration over unchanged content: every checksum
recomputes to the stored value "old". -/
def cfgC5 : RunCfg :=
  { cfgC2 with shouldRefreshAllPages := true, hash := fun _ => "old" }

def stC5 : St := { pages := [pageA1], pageSections := [secA], nextId := 3, log := [] }

/-- C5: the claim says that with the force-refresh flag every source has
its Sections deleted and fully regenerated with fresh ids. The code
instead begins the full refresh with DELETE FROM pages while the
sections still reference them, which the NO ACTION foreign key rejects;
the error aborts the run, so the store is untouched: the old Section row
(same id 2) is still there and nothing was regenerated. -/
theorem c5_force_refresh_aborts_and_regenerates_nothing :
    (generateEmbeddings cfgC5 99 stC5 [srcA]).pages = [pageA1] ∧
    (generateEmbeddings cfgC5 99 stC5 [srcA]).pageSections = [secA] ∧
    LogEntry.errorEntry "FATAL" "" ∈ (generateEmbeddings cfgC5 99 stC5 [srcA]).log := by
  decide

/-- The documentation layout of the claim: pages/guides.mdx next to
directory pages/guides containing setup.md. -/
def fsTreeC7 : List FsTree := [.file "guides.mdx", .dir "guides" [.file "setup.md"]]

/-- The Document row the guides index receives: its stored path is the
stripped "/guides". -/
def guidesPage : Page :=
  { id := 1, parent_page_id := none, path := "/guides", parent_path := none,
    checksum := some "hg", meta := "{}", version := 0, last_refresh := 0 }

/-- C7: the claim says enumeration assigns guides/setup.md a parentPath
that strips to the index document's stored path "/guides". walk instead
joins the index file name onto the directory itself (walk.ts line 20
uses join(entryPath, documentPath) although the existence check looked
in the parent listing), yielding pages/guides/guides.mdx, which strips
to "/guides/guides"; the engine's parent lookup for that value against
the guides row therefore finds nothing, so parent_page_id stays null
rather than becoming the guides Document's id. -/
theorem c7_parent_path_points_inside_directory :
    walk "pages" fsTreeC7 none =
      [{ path := "pages/guides.mdx", parentPath := none },
       { path := "pages/guides/setup.md", parentPath := some "pages/guides/guides.mdx" }] ∧
    generateEmbeddingSources (walk "pages" fsTreeC7 none) =
      [{ path := "/guides", parentPath := none },
       { path := "/guides/setup", parentPath := some "/guides/guides" }] ∧
    [guidesPage].find?
      (fun p => decide ((some "/guides/guides" : Option String) = some p.path)) = none ∧
    ((some "/guides/guides" : Option String) = some guidesPage.path → False) := by
  decide

/-! ### Structure of the heading split (claims about loadMarkdownSource) -/

def headingPred : MNode → Bool := fun n => decide (n.nodeType = "heading")

/-- The children that survive the MDX filter. -/
def filteredChildren (cfg : RunCfg) (content : String) : List MNode :=
  (cfg.parse content).filter (fun n => !(mdxNodeTypes.contains n.nodeType))

/-- The section trees of a document's content. -/
def sectionGroups (cfg : RunCfg) (content : String) : List (List MNode) :=
  splitTreeBy headingPred (filteredChildren cfg content)

theorem splitStep_flatten (p : MNode → Bool) (acc : List (List MNode)) (n : MNode) :
    (splitStep p acc n).flatten = acc.flatten ++ [n] := by
  unfold splitStep
  cases hacc : acc.getLast? with
  | none =>
    have hnil : acc = [] := by
      cases acc with
      | nil => rfl
      | cons a as => simp at hacc
    subst hnil
    simp
  | some last =>
    have hsplit : acc.dropLast ++ [last] = acc :=
      List.dropLast_append_getLast? last (by rw [hacc]; rfl)
    by_cases hp : p n
    · simp [hp]
    · simp only [hp, if_false]
      calc (acc.dropLast ++ [last ++ [n]]).flatten
          = acc.dropLast.flatten ++ (last ++ [n]) := by simp
        _ = (acc.dropLast.flatten ++ last) ++ [n] := by rw [List.append_assoc]
        _ = (acc.dropLast ++ [last]).flatten ++ [n] := by simp
        _ = acc.flatten ++ [n] := by rw [hsplit]

theorem splitTreeBy_go_flatten (p : MNode → Bool) :
    ∀ (l : List MNode) (acc : List (List MNode)),
      (l.foldl (splitStep p) acc).flatten = acc.flatten ++ l := by
  intro l
  induction l with
  | nil => intro acc; simp
  | cons n rest ih =>
    intro acc
    simp only [List.foldl_cons]
    rw [ih (splitStep p acc n), splitStep_flatten]
    simp

/-- Concatenating the split groups in order reproduces the children. -/
theorem splitTreeBy_flatten (p : MNode → Bool) (l : List MNode) :
    (splitTreeBy p l).flatten = l := by
  unfold splitTreeBy
  rw [splitTreeBy_go_flatten]
  rfl

/-- Shape invariant of the split: groups are nonempty, and every group
after the first starts with a node satisfying the predicate. -/
def GoodGroups (p : MNode → Bool) (gs : List (List MNode)) : Prop :=
  (∀ g ∈ gs, g ≠ []) ∧ (∀ g ∈ gs.drop 1, ∃ n rest, g = n :: rest ∧ p n = true)

def FirstNodeOf (gs : List (List MNode)) : Option MNode := gs.head?.bind List.head?

theorem mem_drop_one_dropLast {x : List MNode} :
    ∀ {l : List (List MNode)}, x ∈ l.dropLast.drop 1 → x ∈ l.drop 1 := by
  intro l hx
  cases l with
  | nil => simp at hx
  | cons a as =>
    cases as with
    | nil => simp at hx
    | cons b bs =>
      simp only [List.dropLast, List.drop] at hx ⊢
      exact List.dropLast_subset _ hx

theorem splitStep_good (p : MNode → Bool) (acc : List (List MNode)) (n : MNode)
    (hg : GoodGroups p acc) : GoodGroups p (splitStep p acc n) := by
  obtain ⟨hne, hheads⟩ := hg
  unfold splitStep
  cases hacc : acc.getLast? with
  | none => exact ⟨by intro g hmem; simp at hmem; simp [hmem], by simp⟩
  | some last =>
    have haccne : acc ≠ [] := by
      rintro rfl
      simp at hacc
    have hsplit : acc.dropLast ++ [last] = acc :=
      List.dropLast_append_getLast? last (by rw [hacc]; rfl)
    have hlastmem : last ∈ acc := by
      rw [← hsplit]
      simp
    by_cases hp : p n
    · simp only [hp, if_true]
      constructor
      · intro g hmem
        rcases List.mem_append.mp hmem with h | h
        · exact hne g h
        · simp at h
          simp [h]
      · intro g hmem
        rw [List.drop_append_of_le_length (by
          cases acc with
          | nil => exact absurd rfl haccne
          | cons a as => simp)] at hmem
        rcases List.mem_append.mp hmem with h | h
        · exact hheads g h
        · simp at h
          exact ⟨n, [], by simp [h, hp]⟩
    · simp only [hp, if_false]
      constructor
      · intro g hmem
        rcases List.mem_append.mp hmem with h | h
        · exact hne g (List.dropLast_subset _ h)
        · simp at h
          subst h
          intro habs
          exact hne last hlastmem (by simpa using congrArg (List.take last.length) habs)
      · intro g hmem
        cases hdl : acc.dropLast with
        | nil =>
          rw [hdl] at hmem
          simp at hmem
        | cons d ds =>
          rw [hdl] at hmem
          simp only [List.cons_append, List.drop_succ_cons, List.drop_zero] at hmem
          rcases List.mem_append.mp hmem with h | h
          · refine hheads g (mem_drop_one_dropLast ?_)
            rw [hdl]
            simpa using h
          · simp at h
            subst h
            have hdrop : acc.drop 1 = ds ++ [last] := by
              rw [← hsplit, hdl]
              simp
            have hlast_tail : last ∈ acc.drop 1 := by
              rw [hdrop]
              simp
            rcases hheads last hlast_tail with ⟨m, r, hmr, hpm⟩
            exact ⟨m, r ++ [n], by simp [hmr, hpm]⟩

theorem splitStep_first (p : MNode → Bool) (acc : List (List MNode)) (n : MNode)
    (hne : acc ≠ []) (hg : ∀ g ∈ acc, g ≠ []) :
    FirstNodeOf (splitStep p acc n) = FirstNodeOf acc ∧ splitStep p acc n ≠ [] := by
  unfold splitStep
  cases hacc : acc.getLast? with
  | none =>
    exfalso
    cases acc with
    | nil => exact hne rfl
    | cons a as => simp at hacc
  | some last =>
    have hsplit : acc.dropLast ++ [last] = acc :=
      List.dropLast_append_getLast? last (by rw [hacc]; rfl)
    by_cases hp : p n
    · simp only [hp, if_true]
      constructor
      · unfold FirstNodeOf
        cases acc with
        | nil => exact absurd rfl hne
        | cons a as => simp
      · simp
    · simp only [hp, if_false]
      constructor
      · unfold FirstNodeOf
        cases hdl : acc.dropLast with
        | nil =>
          have hacc1 : acc = [last] := by rw [← hsplit, hdl]; rfl
          subst hacc1
          have : last ≠ [] := hg last (by simp)
          cases last with
          | nil => exact absurd rfl this
          | cons m r => simp
        | cons d ds =>
          have hacc1 : acc = d :: (ds ++ [last]) := by rw [← hsplit, hdl]; rfl
          rw [hacc1]
          simp
      · simp

theorem splitTreeBy_go_inv (p : MNode → Bool) :
    ∀ (l : List MNode) (acc : List (List MNode)),
      GoodGroups p acc → acc ≠ [] → (∀ g ∈ acc, g ≠ []) →
      GoodGroups p (l.foldl (splitStep p) acc) ∧
      FirstNodeOf (l.foldl (splitStep p) acc) = FirstNodeOf acc ∧
      l.foldl (splitStep p) acc ≠ [] := by
  intro l
  induction l with
  | nil => intro acc hg hne _; exact ⟨hg, rfl, hne⟩
  | cons n rest ih =>
    intro acc hg hne hgne
    simp only [List.foldl_cons]
    have hgood := splitStep_good p acc n hg
    have hfirst := splitStep_first p acc n hne hgne
    rcases ih (splitStep p acc n) hgood (hfirst.2) (hgood.1) with ⟨h1, h2, h3⟩
    exact ⟨h1, by rw [h2, hfirst.1], h3⟩

/-- The split of a nonempty child list is a nonempty list of nonempty
groups whose later groups start at predicate nodes, and whose first
group starts with the first child. -/
theorem splitTreeBy_shape (p : MNode → Bool) (n : MNode) (rest : List MNode) :
    GoodGroups p (splitTreeBy p (n :: rest)) ∧
    ∃ g gs, splitTreeBy p (n :: rest) = (n :: g) :: gs := by
  unfold splitTreeBy
  simp only [List.foldl_cons]
  have hstep : splitStep p [] n = [[n]] := by rfl
  rw [hstep]
  have hg : GoodGroups p [[n]] := ⟨by intro g h; simp at h; simp [h], by simp⟩
  rcases splitTreeBy_go_inv p rest [[n]] hg (by simp) (by intro g h; simp at h; simp [h])
    with ⟨h1, h2, h3⟩
  refine ⟨h1, ?_⟩
  have : FirstNodeOf [[n]] = some n := by rfl
  rw [this] at h2
  cases hres : rest.foldl (splitStep p) [[n]] with
  | nil => exact absurd hres h3
  | cons g0 gs =>
    rw [hres] at h2
    unfold FirstNodeOf at h2
    simp at h2
    cases g0 with
    | nil => simp at h2
    | cons m r =>
      simp at h2
      exact ⟨r, gs, by rw [h2]⟩

theorem splitTreeBy_empty (p : MNode → Bool) : splitTreeBy p [] = [] := rfl

/-- How a split group determines its section's heading and slug fields: a
group opening with a heading node carries both, any other group carries
neither. -/
def SectionMatches (g : List MNode) (s : SectionData) : Prop :=
  (∀ n rest, g = n :: rest → n.nodeType = "heading" → s.heading.isSome ∧ s.slug.isSome) ∧
  (∀ n rest, g = n :: rest → n.nodeType ≠ "heading" → s.heading = none ∧ s.slug = none)

theorem mapSectionTrees_forall2 (cfg : RunCfg) :
    ∀ (gs : List (List MNode)) (occ : SluggerOcc),
      List.Forall₂ SectionMatches gs (mapSectionTrees cfg occ gs) := by
  intro gs
  induction gs with
  | nil => intro occ; exact List.Forall₂.nil
  | cons t ts ih =>
    intro occ
    cases t with
    | nil =>
      refine List.Forall₂.cons ⟨?_, ?_⟩ (ih occ)
      · intro n rest h
        cases h
      · intro n rest h
        cases h
    | cons firstNode r =>
      by_cases hh : firstNode.nodeType = "heading"
      · simp only [mapSectionTrees, if_pos hh]
        refine List.Forall₂.cons ⟨?_, ?_⟩ (ih _)
        · intro n rest heq hhead
          cases heq
          simp
        · intro n rest heq hne
          cases heq
          exact absurd hh hne
      · simp only [mapSectionTrees, if_neg hh]
        refine List.Forall₂.cons ⟨?_, ?_⟩ (ih occ)
        · intro n rest heq hhead
          cases heq
          exact absurd hhead hh
        · intro n rest heq hne
          cases heq
          exact ⟨rfl, rfl⟩

/-- Within one call, the slugs handed out are fresh against the incoming
occurrence map and pairwise distinct. -/
theorem mapSectionTrees_slugs (cfg : RunCfg) :
    ∀ (gs : List (List MNode)) (occ : SluggerOcc), (occKeys occ).Nodup →
      ((mapSectionTrees cfg occ gs).filterMap SectionData.slug).Nodup ∧
      ∀ x ∈ (mapSectionTrees cfg occ gs).filterMap SectionData.slug, x ∉ occKeys occ := by
  intro gs
  induction gs with
  | nil => intro occ _; exact ⟨List.nodup_nil, fun x hx => absurd hx (List.not_mem_nil x)⟩
  | cons t ts ih =>
    intro occ hocc
    cases t with
    | nil =>
      exact ih occ hocc
    | cons firstNode r =>
      by_cases hh : firstNode.nodeType = "heading"
      · simp only [mapSectionTrees, if_pos hh]
        have hfresh := sluggerSlug_fresh cfg.slugify occ
          (((parseHeading firstNode.nodeText).2).getD (parseHeading firstNode.nodeText).1)
        set res := sluggerSlug cfg.slugify occ
          (((parseHeading firstNode.nodeText).2).getD (parseHeading firstNode.nodeText).1) with hres
        have hocc2 : (occKeys res.2).Nodup := by
          rw [hfresh.2]
          exact List.Nodup.append hocc (List.nodup_singleton _)
            (by
              intro x hx hx2
              simp at hx2
              subst hx2
              exact hfresh.1 hx)
        rcases ih res.2 hocc2 with ⟨hnd, hnotin⟩
        constructor
        · simp only [List.filterMap_cons]
          refine List.Nodup.cons ?_ hnd
          intro hmem
          have := hnotin res.1 hmem
          rw [hfresh.2] at this
          simp at this
        · intro x hx
          simp only [List.filterMap_cons] at hx
          rcases List.mem_cons.mp hx with h | h
          · subst h
            exact hfresh.1
          · have := hnotin x h
            rw [hfresh.2] at this
            intro hxin
            exact this (List.mem_append_left _ hxin)
      · simp only [mapSectionTrees, if_neg hh]
        exact ih occ hocc

/-- C8: for every parsed document, the sections returned by
loadMarkdownSource come from splitting the filtered tree at heading
boundaries: the groups concatenate back to the filtered children in
source order, every group after the first starts with a heading node and
its section carries heading and slug, a leading non-heading block forms
a first group whose section has neither, and the first group starts at
the first filtered child. -/
theorem c8_sections_are_heading_split (cfg : RunCfg) (sd : SourceData)
    (content : String) (pmx : ProcessedMdx)
    (hfs : cfg.fs sd.path = some content)
    (hload : loadMarkdownSource cfg sd = some pmx) :
    pmx.sections = mapSectionTrees cfg [] (sectionGroups cfg content) ∧
    (sectionGroups cfg content).flatten = filteredChildren cfg content ∧
    (∀ g ∈ sectionGroups cfg content, g ≠ []) ∧
    (∀ g ∈ (sectionGroups cfg content).drop 1,
       ∃ n rest, g = n :: rest ∧ n.nodeType = "heading") ∧
    (∀ n rest, filteredChildren cfg content = n :: rest →
       ∃ g gs, sectionGroups cfg content = (n :: g) :: gs) ∧
    List.Forall₂ SectionMatches (sectionGroups cfg content) pmx.sections := by
  have hsec : pmx.sections = mapSectionTrees cfg [] (sectionGroups cfg content) := by
    unfold loadMarkdownSource at hload
    rw [hfs] at hload
    simp only [filterMdxNodes, Option.some.injEq] at hload
    rw [← hload]
    rfl
  refine ⟨hsec, splitTreeBy_flatten _ _, ?_, ?_, ?_, ?_⟩
  · intro g hg
    cases hch : filteredChildren cfg content with
    | nil =>
      unfold sectionGroups at hg
      rw [hch] at hg
      simp [splitTreeBy_empty] at hg
    | cons n rest =>
      have := (splitTreeBy_shape headingPred n rest).1.1
      unfold sectionGroups at hg
      rw [hch] at hg
      exact this g hg
  · intro g hg
    cases hch : filteredChildren cfg content with
    | nil =>
      unfold sectionGroups at hg
      rw [hch] at hg
      simp [splitTreeBy_empty] at hg
    | cons n rest =>
      unfold sectionGroups at hg
      rw [hch] at hg
      rcases (splitTreeBy_shape headingPred n rest).1.2 g hg with ⟨m, r, hmr, hpm⟩
      exact ⟨m, r, hmr, of_decide_eq_true hpm⟩
  · intro n rest hch
    unfold sectionGroups
    rw [hch]
    exact (splitTreeBy_shape headingPred n rest).2
  · rw [hsec]
    exact mapSectionTrees_forall2 cfg (sectionGroups cfg content) []

/-- C9: the checksum of a loaded source is the hash of the file content
alone: two loads over byte-identical content, whatever their paths or
any other collaborator, produce the same checksum. -/
theorem c9_checksum_content_only (cfg1 cfg2 : RunCfg) (sd1 sd2 : SourceData)
    (content : String) (p1 p2 : ProcessedMdx)
    (hh : cfg1.hash = cfg2.hash)
    (h1 : cfg1.fs sd1.path = some content) (h2 : cfg2.fs sd2.path = some content)
    (hl1 : loadMarkdownSource cfg1 sd1 = some p1)
    (hl2 : loadMarkdownSource cfg2 sd2 = some p2) :
    p1.checksum = cfg1.hash content ∧ p2.checksum = cfg2.hash content ∧
    p1.checksum = p2.checksum := by
  have e1 : p1.checksum = cfg1.hash content := by
    unfold loadMarkdownSource at hl1
    rw [h1] at hl1
    simp only [filterMdxNodes, Option.some.injEq] at hl1
    rw [← hl1]
  have e2 : p2.checksum = cfg2.hash content := by
    unfold loadMarkdownSource at hl2
    rw [h2] at hl2
    simp only [filterMdxNodes, Option.some.injEq] at hl2
    rw [← hl2]
  exact ⟨e1, e2, by rw [e1, e2, hh]⟩

/-- C10: within a single loadMarkdownSource call the assigned slugs are
pairwise distinct (the fresh slugger de-duplicates repeated headings and
anchors), and the de-duplication is scoped to the one document: a load
of any other source with the same content reproduces the same sections,
so the same slugs recur across documents. -/
theorem c10_slugs_distinct_within_document (cfg : RunCfg) (sd : SourceData)
    (content : String) (pmx : ProcessedMdx)
    (hfs : cfg.fs sd.path = some content)
    (hload : loadMarkdownSource cfg sd = some pmx) :
    (pmx.sections.filterMap SectionData.slug).Nodup ∧
    (∀ sd2 pmx2, cfg.fs sd2.path = some content →
       loadMarkdownSource cfg sd2 = some pmx2 → pmx2.sections = pmx.sections) := by
  have hsec : pmx.sections = mapSectionTrees cfg [] (sectionGroups cfg content) := by
    unfold loadMarkdownSource at hload
    rw [hfs] at hload
    simp only [filterMdxNodes, Option.some.injEq] at hload
    rw [← hload]
    rfl
  constructor
  · rw [hsec]
    exact (mapSectionTrees_slugs cfg (sectionGroups cfg content) [] List.nodup_nil).1
  · intro sd2 pmx2 hfs2 hload2
    have hsec2 : pmx2.sections = mapSectionTrees cfg [] (sectionGroups cfg content) := by
      unfold loadMarkdownSource at hload2
      rw [hfs2] at hload2
      simp only [filterMdxNodes, Option.some.injEq] at hload2
      rw [← hload2]
      rfl
    rw [hsec, hsec2]

/-! ### Concrete markdown fixtures for the load-level claims -/

/-- A document whose parsed tree is: paragraph, heading T, paragraph,
heading T - the second heading repeats the first, exercising the slug
de-duplication. -/
def cfgMd : RunCfg :=
  { shouldRefreshAllPages := false
    fs := fun p => if p = "/doc" then some "md" else none
    hash := fun c => "h-" ++ c
    parse := fun _ =>
      [{ nodeType := "paragraph", nodeText := "intro" },
       { nodeType := "heading", nodeText := "T" },
       { nodeType := "paragraph", nodeText := "x" },
       { nodeType := "heading", nodeText := "T" }]
    toMd := fun g => (g.map MNode.nodeText).foldl (fun a b => a ++ b) ""
    metaOf := fun _ => "{}"
    slugify := fun s => s
    embed := fun _ => some ([1], 7) }

def srcDoc : SourceData := { path := "/doc", parentPath := none }

/-- The load result of the fixture document: the repeated heading gets
the suffixed slug T-1. -/
def pmxMd : ProcessedMdx :=
  { checksum := "h-md", meta := "{}",
    sections :=
      [{ content := "intro", heading := none, slug := none },
       { content := "Tx", heading := some "T", slug := some "T" },
       { content := "T", heading := some "T", slug := some "T-1" }] }

/-- A second configuration differing only in which path holds the same
bytes. -/
def cfgMd2 : RunCfg :=
  { cfgMd with fs := fun p => if p = "/other" then some "md" else none }

def srcOther : SourceData := { path := "/other", parentPath := some "/odd" }

theorem c8_witness :
    loadMarkdownSource cfgMd srcDoc = some pmxMd ∧
    (pmxMd.sections = mapSectionTrees cfgMd [] (sectionGroups cfgMd "md") ∧
     (sectionGroups cfgMd "md").flatten = filteredChildren cfgMd "md" ∧
     (∀ g ∈ sectionGroups cfgMd "md", g ≠ []) ∧
     (∀ g ∈ (sectionGroups cfgMd "md").drop 1,
        ∃ n rest, g = n :: rest ∧ n.nodeType = "heading") ∧
     (∀ n rest, filteredChildren cfgMd "md" = n :: rest →
        ∃ g gs, sectionGroups cfgMd "md" = (n :: g) :: gs) ∧
     List.Forall₂ SectionMatches (sectionGroups cfgMd "md") pmxMd.sections) :=
  ⟨by decide, c8_sections_are_heading_split cfgMd srcDoc "md" pmxMd (by decide) (by decide)⟩

theorem c9_witness :
    cfgMd.fs srcDoc.path = some "md" ∧ cfgMd2.fs srcOther.path = some "md" ∧
    (pmxMd.checksum = cfgMd.hash "md" ∧ pmxMd.checksum = cfgMd2.hash "md" ∧
     pmxMd.checksum = pmxMd.checksum) :=
  ⟨by decide, by decide,
   c9_checksum_content_only cfgMd cfgMd2 srcDoc srcOther "md" pmxMd pmxMd rfl
     (by decide) (by decide) (by decide) (by decide)⟩

theorem c10_witness :
    pmxMd.sections.filterMap SectionData.slug = ["T", "T-1"] ∧
    ((pmxMd.sections.filterMap SectionData.slug).Nodup ∧
     (∀ sd2 pmx2, cfgMd.fs sd2.path = some "md" →
        loadMarkdownSource cfgMd sd2 = some pmx2 → pmx2.sections = pmxMd.sections)) :=
  ⟨by decide, c10_slugs_distinct_within_document cfgMd srcDoc "md" pmxMd (by decide) (by decide)⟩

/-! ### Observables and well-formedness of run states -/

/-- The rows of the pages table at a given path. -/
def pagesAtPath (st : St) (q : String) : List Page :=
  st.pages.filter (fun p => decide (p.path = q))

/-- The rows of the pages table with a given id. -/
def pageById (st : St) (pid : Nat) : List Page :=
  st.pages.filter (fun p => decide (p.id = pid))

/-- The section rows owned by a page id. -/
def sectionsOfPage (st : St) (pid : Nat) : List PageSection :=
  st.pageSections.filter (fun s => decide (s.page_id = pid))

/-- A store as produced by honest runs: page ids are pairwise distinct,
and every id, version stamp and section owner id was drawn from the UUID
counter, hence lies below it. -/
def WfSt (st : St) : Prop :=
  (st.pages.map Page.id).Nodup ∧
  (∀ p ∈ st.pages, p.id < st.nextId) ∧
  (∀ p ∈ st.pages, p.version < st.nextId) ∧
  (∀ sec ∈ st.pageSections, sec.page_id < st.nextId)

instance (st : St) : Decidable (WfSt st) := by
  unfold WfSt
  infer_instance

theorem pagesAtPath_pushInfo (st : St) (t p q : String) :
    pagesAtPath (pushInfo st t p) q = pagesAtPath st q := rfl

theorem pagesAtPath_pushError (st : St) (t p q : String) :
    pagesAtPath (pushError st t p) q = pagesAtPath st q := rfl

theorem pageById_pushInfo (st : St) (t p : String) (pid : Nat) :
    pageById (pushInfo st t p) pid = pageById st pid := rfl

theorem pageById_pushError (st : St) (t p : String) (pid : Nat) :
    pageById (pushError st t p) pid = pageById st pid := rfl

theorem sectionsOfPage_pushInfo (st : St) (t p : String) (pid : Nat) :
    sectionsOfPage (pushInfo st t p) pid = sectionsOfPage st pid := rfl

theorem sectionsOfPage_pushError (st : St) (t p : String) (pid : Nat) :
    sectionsOfPage (pushError st t p) pid = sectionsOfPage st pid := rfl

/-- Mapping a row transformer that neither moves a row out of a filter
nor changes the rows inside it leaves the filter unchanged. -/
theorem filter_map_fix {α : Type} (f : α → α) (pred : α → Bool) :
    ∀ l : List α, (∀ x, pred (f x) = pred x) → (∀ x ∈ l, pred x = true → f x = x) →
      (l.map f).filter pred = l.filter pred := by
  intro l
  induction l with
  | nil => intro _ _; rfl
  | cons a l ih =>
    intro hpred hfix
    simp only [List.map_cons, List.filter_cons]
    cases ha : pred a with
    | false =>
      rw [hpred a, ha]
      exact ih hpred (fun x hx => hfix x (List.mem_cons_of_mem a hx))
    | true =>
      rw [hpred a, ha, hfix a (List.mem_cons_self a l) ha]
      rw [ih hpred (fun x hx => hfix x (List.mem_cons_of_mem a hx))]

theorem filter_append_drop {α : Type} (pred : α → Bool) (l₁ l₂ : List α)
    (h : ∀ x ∈ l₂, pred x = false) : (l₁ ++ l₂).filter pred = l₁.filter pred := by
  rw [List.filter_append]
  have : l₂.filter pred = [] := List.filter_eq_nil_iff.mpr (by
    intro a ha
    simp [h a ha])
  rw [this, List.append_nil]

/-- Two pages of a well-formed store with equal ids are equal. -/
theorem wf_page_id_inj {st : St} (hwf : WfSt st) {p q : Page}
    (hp : p ∈ st.pages) (hq : q ∈ st.pages) (h : p.id = q.id) : p = q :=
  List.inj_on_of_nodup_map hwf.1 hp hq h

/-! ### Step lemmas for the per-source loop -/

theorem embedSections_state (cfg : RunCfg) (pid : Nat) :
    ∀ (secs : List SectionData) (st : St),
      (embedSections cfg pid st secs).1.pages = st.pages ∧
      (embedSections cfg pid st secs).1.log = st.log ∧
      st.nextId ≤ (embedSections cfg pid st secs).1.nextId ∧
      ∃ rows, (embedSections cfg pid st secs).1.pageSections = st.pageSections ++ rows ∧
        (∀ r ∈ rows, r.page_id = pid) := by
  intro secs
  induction secs with
  | nil =>
    intro st
    exact ⟨rfl, rfl, Nat.le_refl _, [], by simp [embedSections], by intro r h; simp at h⟩
  | cons sec rest ih =>
    intro st
    cases hemb : cfg.embed (replaceNewlines sec.content) with
    | none =>
      refine ⟨?_, ?_, ?_, [], ?_, by intro r h; simp at h⟩ <;>
        simp [embedSections, hemb]
    | some vt =>
      obtain ⟨vec, tok⟩ := vt
      simp only [embedSections, hemb]
      rcases ih { st with
          pageSections := st.pageSections ++
            [{ id := st.nextId, page_id := pid, slug := sec.slug, heading := sec.heading,
               content := sec.content, token_count := tok, embedding := vec }],
          nextId := st.nextId + 1 } with ⟨hp, hl, hn, rows, hsec, hrows⟩
      refine ⟨hp, hl, by simp at hn; omega,
        { id := st.nextId, page_id := pid, slug := sec.slug, heading := sec.heading,
          content := sec.content, token_count := tok, embedding := vec } :: rows, ?_, ?_⟩
      · simp only [hsec]
        simp
      · intro r hr
        rcases List.mem_cons.mp hr with h | h
        · rw [h]
        · exact hrows r h

/-- When every embedding call succeeds, the loop inserts one row per
section, in order, owned by the page, and reports success. -/
theorem embedSections_ok (cfg : RunCfg) (pid : Nat) :
    ∀ (secs : List SectionData) (st : St),
      (∀ sec ∈ secs, cfg.embed (replaceNewlines sec.content) ≠ none) →
      (embedSections cfg pid st secs).2 = true ∧
      ∃ rows, (embedSections cfg pid st secs).1.pageSections = st.pageSections ++ rows ∧
        rows.map PageSection.content = secs.map SectionData.content ∧
        (∀ r ∈ rows, r.page_id = pid) := by
  intro secs
  induction secs with
  | nil =>
    intro st _
    refine ⟨?_, [], ?_, ?_, by intro r h; simp at h⟩ <;> simp [embedSections]
  | cons sec rest ih =>
    intro st hok
    cases hemb : cfg.embed (replaceNewlines sec.content) with
    | none => exact absurd hemb (hok sec (List.mem_cons_self sec rest))
    | some vt =>
      obtain ⟨vec, tok⟩ := vt
      simp only [embedSections, hemb]
      rcases ih { st with
          pageSections := st.pageSections ++
            [{ id := st.nextId, page_id := pid, slug := sec.slug, heading := sec.heading,
               content := sec.content, token_count := tok, embedding := vec }],
          nextId := st.nextId + 1 }
        (fun x hx => hok x (List.mem_cons_of_mem sec hx)) with ⟨hb, rows, hsec, hcont, hrows⟩
      refine ⟨hb,
        { id := st.nextId, page_id := pid, slug := sec.slug, heading := sec.heading,
          content := sec.content, token_count := tok, embedding := vec } :: rows, ?_, ?_, ?_⟩
      · simp only [hsec]
        simp
      · simp only [List.map_cons]
        rw [hcont]
      · intro r hr
        rcases List.mem_cons.mp hr with h | h
        · rw [h]
        · exact hrows r h

/-- When the embedding call fails for one section, the loop stops there:
only the earlier sections' rows were inserted, and failure is reported. -/
theorem embedSections_fail (cfg : RunCfg) (pid : Nat) :
    ∀ (done : List SectionData) (bad : SectionData) (rest : List SectionData) (st : St),
      (∀ sec ∈ done, cfg.embed (replaceNewlines sec.content) ≠ none) →
      cfg.embed (replaceNewlines bad.content) = none →
      (embedSections cfg pid st (done ++ bad :: rest)).2 = false ∧
      ∃ rows, (embedSections cfg pid st (done ++ bad :: rest)).1.pageSections =
          st.pageSections ++ rows ∧
        rows.map PageSection.content = done.map SectionData.content ∧
        (∀ r ∈ rows, r.page_id = pid) := by
  intro done
  induction done with
  | nil =>
    intro bad rest st _ hbad
    refine ⟨?_, [], ?_, ?_, by intro r h; simp at h⟩ <;>
      simp [embedSections, hbad]
  | cons sec done ih =>
    intro bad rest st hok hbad
    cases hemb : cfg.embed (replaceNewlines sec.content) with
    | none => exact absurd hemb (hok sec (List.mem_cons_self sec done))
    | some vt =>
      obtain ⟨vec, tok⟩ := vt
      simp only [List.cons_append, embedSections, hemb, List.append_eq]
      rcases ih bad rest { st with
          pageSections := st.pageSections ++
            [{ id := st.nextId, page_id := pid, slug := sec.slug, heading := sec.heading,
               content := sec.content, token_count := tok, embedding := vec }],
          nextId := st.nextId + 1 }
        (fun x hx => hok x (List.mem_cons_of_mem sec hx)) hbad with ⟨hb, rows, hsec, hcont, hrows⟩
      refine ⟨hb,
        { id := st.nextId, page_id := pid, slug := sec.slug, heading := sec.heading,
          content := sec.content, token_count := tok, embedding := vec } :: rows, ?_, ?_, ?_⟩
      · simp only [hsec]
        simp
      · simp only [List.map_cons]
        rw [hcont]
      · intro r hr
        rcases List.mem_cons.mp hr with h | h
        · rw [h]
        · exact hrows r h

theorem pages_pushInfo (st : St) (t p : String) : (pushInfo st t p).pages = st.pages := rfl

theorem pages_pushError (st : St) (t p : String) : (pushError st t p).pages = st.pages := rfl

theorem nextId_pushInfo (st : St) (t p : String) : (pushInfo st t p).nextId = st.nextId := rfl

theorem nextId_pushError (st : St) (t p : String) : (pushError st t p).nextId = st.nextId := rfl

theorem lookupPage_mem {pages : List Page} {q : String} {ep : Page}
    (h : lookupPageByPath pages q = some ep) : ep ∈ pages ∧ ep.path = q := by
  refine ⟨List.mem_of_find?_eq_some h, ?_⟩
  have := List.find?_some h
  simpa using this

/-- Reduction: the loop body when the load throws. -/
theorem processSourceCore_load_none (cfg : RunCfg) (v d : Nat) (st : St) (src : SourceData)
    (h : loadMarkdownSource cfg src = none) :
    processSourceCore cfg v d st src = (st, some "load failed") := by
  simp [processSourceCore, h]

/-- Reduction: the loop body when no row exists at the path: the section
delete dereferences undefined and throws before touching the store. -/
theorem processSourceCore_no_existing (cfg : RunCfg) (v d : Nat) (st : St) (src : SourceData)
    (pmx : ProcessedMdx) (hl : loadMarkdownSource cfg src = some pmx)
    (he : lookupPageByPath st.pages src.path = none) :
    processSourceCore cfg v d st src =
      (st, some "TypeError: cannot read id of undefined existingPage") := by
  simp [processSourceCore, hl, he]

/-- Reduction: the skip path. -/
theorem processSourceCore_skip (cfg : RunCfg) (v d : Nat) (st : St) (src : SourceData)
    (pmx : ProcessedMdx) (ep : Page) (hl : loadMarkdownSource cfg src = some pmx)
    (he : lookupPageByPath st.pages src.path = some ep)
    (hflag : cfg.shouldRefreshAllPages = false)
    (hsum : ep.checksum = some pmx.checksum) :
    processSourceCore cfg v d st src =
      (pushInfo (updatePageSkip st ep.id pmx.meta v d) "SKIP" src.path, none) := by
  simp [processSourceCore, hl, he, hflag, hsum]

/-- Reduction: the refresh path for an existing row with a stale
checksum: delete its sections, then insert and embed. -/
theorem processSourceCore_refresh (cfg : RunCfg) (v d : Nat) (st : St) (src : SourceData)
    (pmx : ProcessedMdx) (ep : Page) (hl : loadMarkdownSource cfg src = some pmx)
    (he : lookupPageByPath st.pages src.path = some ep)
    (hdiff : ep.checksum ≠ some pmx.checksum) :
    processSourceCore cfg v d st src =
      refreshTail cfg v d (pushInfo (deleteSectionsByPageId st ep.id) "UPDATE" src.path)
        src pmx := by
  simp [processSourceCore, hl, he, hdiff]

theorem processSource_of_core_ok (cfg : RunCfg) (v d : Nat) (st st1 : St) (src : SourceData)
    (h : processSourceCore cfg v d st src = (st1, none)) :
    processSource cfg v d st src = st1 := by
  simp [processSource, h]

theorem processSource_of_core_err (cfg : RunCfg) (v d : Nat) (st st1 : St) (src : SourceData)
    (e : String) (h : processSourceCore cfg v d st src = (st1, some e)) :
    processSource cfg v d st src = pushError st1 "PROCESS" src.path := by
  simp [processSource, h]

/-! ### Monotonicity and preservation of well-formedness -/

theorem nextId_setPageChecksum (st : St) (pid : Nat) (c : String) :
    (setPageChecksum st pid c).nextId = st.nextId := rfl

theorem pageSections_setPageChecksum (st : St) (pid : Nat) (c : String) :
    (setPageChecksum st pid c).pageSections = st.pageSections := rfl

theorem nextId_insertNewPage (st : St) (src : SourceData) (pmx : ProcessedMdx) (v d : Nat) :
    (insertNewPage st src pmx v d).nextId = st.nextId + 1 := rfl

theorem pages_insertNewPage (st : St) (src : SourceData) (pmx : ProcessedMdx) (v d : Nat) :
    (insertNewPage st src pmx v d).pages = st.pages ++ [newPageOf st src pmx v d] := rfl

theorem pageSections_insertNewPage (st : St) (src : SourceData) (pmx : ProcessedMdx) (v d : Nat) :
    (insertNewPage st src pmx v d).pageSections = st.pageSections := rfl

theorem refreshTail_nextId_le (cfg : RunCfg) (v d : Nat) (st : St) (src : SourceData)
    (pmx : ProcessedMdx) : st.nextId ≤ (refreshTail cfg v d st src pmx).1.nextId := by
  have h := (embedSections_state cfg st.nextId pmx.sections (insertNewPage st src pmx v d)).2.2.1
  rw [nextId_insertNewPage] at h
  unfold refreshTail
  split
  all_goals rename_i st2 heq
  · rw [heq] at h
    simp only [nextId_setPageChecksum]
    simp at h
    omega
  · rw [heq] at h
    simp only [nextId_pushError]
    simp at h
    omega

theorem processSourceCore_nextId_le (cfg : RunCfg) (v d : Nat) (st : St) (src : SourceData) :
    st.nextId ≤ (processSourceCore cfg v d st src).1.nextId := by
  unfold processSourceCore
  split
  · exact Nat.le_refl _
  rename_i pmx _
  split
  · exact Nat.le_refl _
  rename_i ep _
  split
  · exact Nat.le_refl _
  · split
    · exact refreshTail_nextId_le cfg v d st src pmx
    · exact refreshTail_nextId_le cfg v d
        (pushInfo (deleteSectionsByPageId st ep.id) "UPDATE" _) _ pmx

theorem processSource_nextId_le (cfg : RunCfg) (v d : Nat) (st : St) (src : SourceData) :
    st.nextId ≤ (processSource cfg v d st src).nextId := by
  have h := processSourceCore_nextId_le cfg v d st src
  unfold processSource
  split
  all_goals rename_i st1 heq
  · rw [heq] at h
    exact h
  · rename_i e
    rw [heq] at h
    exact h

theorem map_id_of_id_preserving (f : Page → Page) (hid : ∀ p, (f p).id = p.id) :
    ∀ l : List Page, (l.map f).map Page.id = l.map Page.id := by
  intro l
  induction l with
  | nil => rfl
  | cons a l ih => simp only [List.map_cons, hid a, ih]

theorem delete_wf (st : St) (pid : Nat) (t q : String) (hwf : WfSt st) :
    WfSt (pushInfo (deleteSectionsByPageId st pid) t q) := by
  obtain ⟨hnd, hidlt, hverlt, hseclt⟩ := hwf
  refine ⟨hnd, hidlt, hverlt, ?_⟩
  intro sec hsec
  exact hseclt sec (List.mem_of_mem_filter hsec)

theorem insertNewPage_wf (st : St) (src : SourceData) (pmx : ProcessedMdx) (v d : Nat)
    (hwf : WfSt st) (hv : v < st.nextId) : WfSt (insertNewPage st src pmx v d) := by
  obtain ⟨hnd, hidlt, hverlt, hseclt⟩ := hwf
  refine ⟨?_, ?_, ?_, ?_⟩
  · show ((st.pages ++ [newPageOf st src pmx v d]).map Page.id).Nodup
    rw [List.map_append]
    rw [List.nodup_append]
    refine ⟨hnd, List.nodup_singleton _, ?_⟩
    intro x hx
    rcases List.mem_map.mp hx with ⟨p, hp, rfl⟩
    intro hx2
    simp only [List.map_cons, List.map_nil, List.mem_singleton] at hx2
    have : p.id < st.nextId := hidlt p hp
    rw [hx2] at this
    exact absurd this (Nat.lt_irrefl _)
  · intro p hp
    rcases List.mem_append.mp hp with h | h
    · exact Nat.lt_succ_of_lt (hidlt p h)
    · simp only [List.mem_singleton] at h
      rw [h]
      exact Nat.lt_succ_self _
  · intro p hp
    rcases List.mem_append.mp hp with h | h
    · exact Nat.lt_succ_of_lt (hverlt p h)
    · simp only [List.mem_singleton] at h
      rw [h]
      exact Nat.lt_succ_of_lt hv
  · intro sec hsec
    exact Nat.lt_succ_of_lt (hseclt sec hsec)

theorem setPageChecksum_wf (st : St) (pid : Nat) (c : String) (hwf : WfSt st) :
    WfSt (setPageChecksum st pid c) := by
  obtain ⟨hnd, hidlt, hverlt, hseclt⟩ := hwf
  refine ⟨?_, ?_, ?_, hseclt⟩
  · show ((st.pages.map _).map Page.id).Nodup
    rw [map_id_of_id_preserving _ (fun p => by by_cases h : p.id = pid <;> simp [h])]
    exact hnd
  · intro p hp
    rcases List.mem_map.mp hp with ⟨q, hq, rfl⟩
    show (if q.id = pid then { q with checksum := some c } else q).id < st.nextId
    by_cases h : q.id = pid
    · rw [if_pos h]
      exact hidlt q hq
    · rw [if_neg h]
      exact hidlt q hq
  · intro p hp
    rcases List.mem_map.mp hp with ⟨q, hq, rfl⟩
    show (if q.id = pid then { q with checksum := some c } else q).version < st.nextId
    by_cases h : q.id = pid
    · rw [if_pos h]
      exact hverlt q hq
    · rw [if_neg h]
      exact hverlt q hq

theorem updatePageSkip_wf (st : St) (pid : Nat) (m : String) (v d : Nat) (pathArg : String)
    (hwf : WfSt st) (hv : v < st.nextId) :
    WfSt (pushInfo (updatePageSkip st pid m v d) "SKIP" pathArg) := by
  obtain ⟨hnd, hidlt, hverlt, hseclt⟩ := hwf
  refine ⟨?_, ?_, ?_, hseclt⟩
  · show ((st.pages.map _).map Page.id).Nodup
    rw [map_id_of_id_preserving _ (fun p => by by_cases h : p.id = pid <;> simp [h])]
    exact hnd
  · intro p hp
    rcases List.mem_map.mp hp with ⟨q, hq, rfl⟩
    show (if q.id = pid then { q with meta := m, version := v, last_refresh := d } else q).id
      < st.nextId
    by_cases h : q.id = pid
    · rw [if_pos h]
      exact hidlt q hq
    · rw [if_neg h]
      exact hidlt q hq
  · intro p hp
    rcases List.mem_map.mp hp with ⟨q, hq, rfl⟩
    show (if q.id = pid then { q with meta := m, version := v, last_refresh := d } else q).version
      < st.nextId
    by_cases h : q.id = pid
    · rw [if_pos h]
      exact hv
    · rw [if_neg h]
      exact hverlt q hq

theorem refreshTail_wf (cfg : RunCfg) (v d : Nat) (st : St) (src : SourceData)
    (pmx : ProcessedMdx) (hwf : WfSt st) (hv : v < st.nextId) :
    WfSt (refreshTail cfg v d st src pmx).1 := by
  have hwfI := insertNewPage_wf st src pmx v d hwf hv
  obtain ⟨hpages, hlog, hnext, rows, hsecs, hrows⟩ :=
    embedSections_state cfg st.nextId pmx.sections (insertNewPage st src pmx v d)
  have hwfE : WfSt (embedSections cfg st.nextId (insertNewPage st src pmx v d) pmx.sections).1 := by
    obtain ⟨nd1, id1, ver1, sec1⟩ := hwfI
    refine ⟨?_, ?_, ?_, ?_⟩
    · rw [hpages]
      exact nd1
    · intro p hp
      rw [hpages] at hp
      exact Nat.lt_of_lt_of_le (id1 p hp) hnext
    · intro p hp
      rw [hpages] at hp
      exact Nat.lt_of_lt_of_le (ver1 p hp) hnext
    · intro sec hsec
      rw [hsecs] at hsec
      rcases List.mem_append.mp hsec with h | h
      · exact Nat.lt_of_lt_of_le (sec1 sec h) hnext
      · rw [hrows sec h]
        calc st.nextId < st.nextId + 1 := Nat.lt_succ_self _
          _ = (insertNewPage st src pmx v d).nextId := (nextId_insertNewPage st src pmx v d).symm
          _ ≤ _ := hnext
  unfold refreshTail
  split
  all_goals rename_i st2 heq
  · have hfst : (embedSections cfg st.nextId (insertNewPage st src pmx v d) pmx.sections).1 = st2 := by
      rw [heq]
    rw [hfst] at hwfE
    exact setPageChecksum_wf st2 st.nextId pmx.checksum hwfE
  · have hfst : (embedSections cfg st.nextId (insertNewPage st src pmx v d) pmx.sections).1 = st2 := by
      rw [heq]
    rw [hfst] at hwfE
    exact hwfE

/-- Well-formedness is preserved by one loop iteration whenever the run
version came from the counter. -/
theorem processSource_wf (cfg : RunCfg) (v d : Nat) (st : St) (src : SourceData)
    (hwf : WfSt st) (hv : v < st.nextId) : WfSt (processSource cfg v d st src) := by
  have hmain : WfSt (processSourceCore cfg v d st src).1 := by
    obtain ⟨hnd, hidlt, hverlt, hseclt⟩ := hwf
    unfold processSourceCore
    split
    · exact ⟨hnd, hidlt, hverlt, hseclt⟩
    rename_i pmx hl
    split
    · exact ⟨hnd, hidlt, hverlt, hseclt⟩
    rename_i ep hep
    split
    · exact updatePageSkip_wf st ep.id pmx.meta v d src.path ⟨hnd, hidlt, hverlt, hseclt⟩ hv
    · split
      · exact refreshTail_wf cfg v d st src pmx ⟨hnd, hidlt, hverlt, hseclt⟩ hv
      · exact refreshTail_wf cfg v d _ src pmx
          (delete_wf st ep.id "UPDATE" src.path ⟨hnd, hidlt, hverlt, hseclt⟩) hv
  unfold processSource
  split
  · rename_i st1 heq
    have : (processSourceCore cfg v d st src).1 = st1 := by rw [heq]
    rw [this] at hmain
    exact hmain
  · rename_i st1 e heq
    have : (processSourceCore cfg v d st src).1 = st1 := by rw [heq]
    rw [this] at hmain
    exact hmain

theorem filter_map_comm (f : Page → Page) (pred : Page → Bool)
    (hpred : ∀ x, pred (f x) = pred x) :
    ∀ l : List Page, (l.map f).filter pred = (l.filter pred).map f := by
  intro l
  induction l with
  | nil => rfl
  | cons a l ih =>
    simp only [List.map_cons, List.filter_cons, hpred a]
    cases pred a <;> simp [ih]

theorem lookupPageByPath_eq_head (pages : List Page) (q : String) :
    lookupPageByPath pages q = (pages.filter (fun p => decide (p.path = q))).head? := by
  induction pages with
  | nil => rfl
  | cons a l ih =>
    simp only [lookupPageByPath, List.find?, List.filter_cons]
    cases h : decide (a.path = q) <;> simp [h, ih, lookupPageByPath]

theorem mem_of_pagesAtPath {st : St} {q : String} {ep : Page}
    (h : pagesAtPath st q = [ep]) : ep ∈ st.pages ∧ ep.path = q := by
  have hmem : ep ∈ st.pages.filter (fun p => decide (p.path = q)) := by
    rw [show st.pages.filter (fun p => decide (p.path = q)) = [ep] from h]
    simp
  constructor
  · exact List.mem_of_mem_filter hmem
  · have := List.of_mem_filter hmem
    simpa using this

theorem sectionsOfPage_delete_other (st : St) (epid pid : Nat) (h : epid ≠ pid) :
    sectionsOfPage (deleteSectionsByPageId st epid) pid = sectionsOfPage st pid := by
  unfold sectionsOfPage deleteSectionsByPageId
  simp only [List.filter_filter]
  apply List.filter_congr
  intro s _
  by_cases hs : s.page_id = pid
  · have : ¬s.page_id = epid := by rw [hs]; exact fun h2 => h h2.symm
    simp [hs, this]
    exact fun h2 => h h2.symm
  · simp [hs]

theorem sectionsOfPage_prune (v : Nat) (st : St) (pid : Nat) :
    sectionsOfPage (pruneOutdated v st) pid = sectionsOfPage st pid := by
  unfold pruneOutdated
  split <;> rfl

theorem log_pruneOutdated (v : Nat) (st : St) :
    ∃ t, (pruneOutdated v st).log = st.log ++ t := by
  unfold pruneOutdated
  split
  · exact ⟨[LogEntry.errorEntry "FATAL" ""], rfl⟩
  · exact ⟨[], by simp⟩

theorem pagesAtPath_prune_keep (v : Nat) (st : St) (q : String)
    (h : ∀ p ∈ pagesAtPath st q, p.version = v) :
    pagesAtPath (pruneOutdated v st) q = pagesAtPath st q := by
  unfold pruneOutdated
  split
  · rfl
  · show pagesAtPath { st with pages := _ } q = _
    unfold pagesAtPath
    simp only [List.filter_filter]
    apply List.filter_congr
    intro p hp
    by_cases hq : p.path = q
    · have hv : p.version = v := h p (by
        unfold pagesAtPath
        rw [List.mem_filter]
        exact ⟨hp, by simp [hq]⟩)
      simp [hq, hv]
    · simp [hq]

theorem pageById_prune_keep (v : Nat) (st : St) (pid : Nat)
    (h : ∀ p ∈ pageById st pid, p.version = v) :
    pageById (pruneOutdated v st) pid = pageById st pid := by
  unfold pruneOutdated
  split
  · rfl
  · show pageById { st with pages := _ } pid = _
    unfold pageById
    simp only [List.filter_filter]
    apply List.filter_congr
    intro p hp
    by_cases hq : p.id = pid
    · have hv : p.version = v := h p (by
        unfold pageById
        rw [List.mem_filter]
        exact ⟨hp, by simp [hq]⟩)
      simp [hq, hv]
    · simp [hq]

theorem bump_wf (st : St) (hwf : WfSt st) : WfSt { st with nextId := st.nextId + 1 } := by
  obtain ⟨hnd, hidlt, hverlt, hseclt⟩ := hwf
  exact ⟨hnd, fun p hp => Nat.lt_succ_of_lt (hidlt p hp),
    fun p hp => Nat.lt_succ_of_lt (hverlt p hp),
    fun sec hsec => Nat.lt_succ_of_lt (hseclt sec hsec)⟩

theorem runLoop_append (cfg : RunCfg) (v d : Nat) (st : St) (l₁ l₂ : List SourceData) :
    runLoop cfg v d st (l₁ ++ l₂) = runLoop cfg v d (runLoop cfg v d st l₁) l₂ := by
  unfold runLoop
  rw [List.foldl_append]

theorem runLoop_cons (cfg : RunCfg) (v d : Nat) (st : St) (s : SourceData)
    (l : List SourceData) :
    runLoop cfg v d st (s :: l) = runLoop cfg v d (processSource cfg v d st s) l := rfl

theorem generateEmbeddings_no_flag (cfg : RunCfg) (d : Nat) (st : St)
    (sources : List SourceData) (hflag : cfg.shouldRefreshAllPages = false) :
    generateEmbeddings cfg d st sources =
      pruneOutdated st.nextId
        (runLoop cfg st.nextId d { st with nextId := st.nextId + 1 } sources) := by
  simp [generateEmbeddings, hflag]

theorem runLoop_wf (cfg : RunCfg) (v d : Nat) :
    ∀ (sources : List SourceData) (st : St), WfSt st → v < st.nextId →
      WfSt (runLoop cfg v d st sources) ∧ st.nextId ≤ (runLoop cfg v d st sources).nextId := by
  intro sources
  induction sources with
  | nil => intro st hwf _; exact ⟨hwf, Nat.le_refl _⟩
  | cons s rest ih =>
    intro st hwf hv
    rw [runLoop_cons]
    have hstep := processSource_wf cfg v d st s hwf hv
    have hmono := processSource_nextId_le cfg v d st s
    rcases ih (processSource cfg v d st s) hstep (Nat.lt_of_lt_of_le hv hmono) with ⟨h1, h2⟩
    exact ⟨h1, Nat.le_trans hmono h2⟩

/-- Refreshing one source leaves every page at a different path, and its
sections, untouched. -/
theorem refreshTail_frame_page (cfg : RunCfg) (v d : Nat) (st : St) (src : SourceData)
    (pmx : ProcessedMdx) (np : Page) (hwf : WfSt st) (hmem : np ∈ st.pages)
    (hpath : np.path ≠ src.path) :
    np ∈ (refreshTail cfg v d st src pmx).1.pages ∧
    pageById (refreshTail cfg v d st src pmx).1 np.id = pageById st np.id ∧
    pagesAtPath (refreshTail cfg v d st src pmx).1 np.path = pagesAtPath st np.path ∧
    sectionsOfPage (refreshTail cfg v d st src pmx).1 np.id = sectionsOfPage st np.id := by
  have hnplt : np.id < st.nextId := hwf.2.1 np hmem
  have hnewid : (newPageOf st src pmx v d).id = st.nextId := rfl
  have hnewpath : (newPageOf st src pmx v d).path = src.path := rfl
  -- after the INSERT
  have i1 : np ∈ (insertNewPage st src pmx v d).pages := by
    rw [pages_insertNewPage]
    exact List.mem_append_left _ hmem
  have i2 : pageById (insertNewPage st src pmx v d) np.id = pageById st np.id := by
    unfold pageById
    rw [pages_insertNewPage]
    apply filter_append_drop
    intro x hx
    simp only [List.mem_singleton] at hx
    rw [hx, decide_eq_false_iff_not]
    rw [hnewid]
    omega
  have i3 : pagesAtPath (insertNewPage st src pmx v d) np.path = pagesAtPath st np.path := by
    unfold pagesAtPath
    rw [pages_insertNewPage]
    apply filter_append_drop
    intro x hx
    simp only [List.mem_singleton] at hx
    rw [hx, decide_eq_false_iff_not]
    rw [hnewpath]
    exact fun h => hpath h.symm
  -- after the section loop
  obtain ⟨hpages, hlog, hnext, rows, hsecs, hrows⟩ :=
    embedSections_state cfg st.nextId pmx.sections (insertNewPage st src pmx v d)
  have e1 : np ∈ (embedSections cfg st.nextId (insertNewPage st src pmx v d) pmx.sections).1.pages := by
    rw [hpages]
    exact i1
  have e2 : pageById (embedSections cfg st.nextId (insertNewPage st src pmx v d) pmx.sections).1 np.id
      = pageById st np.id := by
    unfold pageById
    rw [hpages]
    exact i2
  have e3 : pagesAtPath (embedSections cfg st.nextId (insertNewPage st src pmx v d) pmx.sections).1 np.path
      = pagesAtPath st np.path := by
    unfold pagesAtPath
    rw [hpages]
    exact i3
  have e4 : sectionsOfPage (embedSections cfg st.nextId (insertNewPage st src pmx v d) pmx.sections).1 np.id
      = sectionsOfPage st np.id := by
    unfold sectionsOfPage
    rw [hsecs]
    rw [filter_append_drop _ _ _ (by
      intro r hr
      rw [decide_eq_false_iff_not, hrows r hr]
      omega)]
    rfl
  -- the final branch
  unfold refreshTail
  split
  all_goals rename_i st2 heq
  · have hfst : (embedSections cfg st.nextId (insertNewPage st src pmx v d) pmx.sections).1 = st2 := by
      rw [heq]
    rw [hfst] at e1 e2 e3 e4
    have hmempages : (insertNewPage st src pmx v d).pages = st2.pages := by
      rw [← hfst, hpages]
    refine ⟨?_, ?_, ?_, e4⟩
    · show np ∈ st2.pages.map _
      have hfix : (fun p => if p.id = st.nextId then { p with checksum := some pmx.checksum } else p) np = np := by
        show (if np.id = st.nextId then { np with checksum := some pmx.checksum } else np) = np
        rw [if_neg (by omega)]
      rw [← hfix]
      exact List.mem_map_of_mem _ e1
    · unfold pageById
      rw [show (setPageChecksum st2 st.nextId pmx.checksum).pages = st2.pages.map _ from rfl]
      rw [filter_map_fix _ _ st2.pages (fun x => by by_cases h : x.id = st.nextId <;> simp [h])
        (fun x hx hpx => by
          rw [if_neg ?_]
          simp at hpx
          omega)]
      exact e2
    · unfold pagesAtPath
      rw [show (setPageChecksum st2 st.nextId pmx.checksum).pages = st2.pages.map _ from rfl]
      rw [filter_map_fix _ _ st2.pages (fun x => by by_cases h : x.id = st.nextId <;> simp [h])
        (fun x hx hpx => by
          rw [if_neg ?_]
          rw [← hmempages, pages_insertNewPage] at hx
          simp at hpx
          rcases List.mem_append.mp hx with h | h
          · have := hwf.2.1 x h
            omega
          · simp only [List.mem_singleton] at h
            rw [h] at hpx
            rw [hnewpath] at hpx
            exact absurd hpx.symm hpath)]
      exact e3
  · have hfst : (embedSections cfg st.nextId (insertNewPage st src pmx v d) pmx.sections).1 = st2 := by
      rw [heq]
    rw [hfst] at e1 e2 e3 e4
    exact ⟨e1, e2, e3, e4⟩

/-- One loop iteration leaves every page at a different path, and its
sections, untouched. -/
theorem processSource_frame_page (cfg : RunCfg) (v d : Nat) (st : St) (src : SourceData)
    (np : Page) (hwf : WfSt st) (hmem : np ∈ st.pages) (hpath : np.path ≠ src.path) :
    np ∈ (processSource cfg v d st src).pages ∧
    pageById (processSource cfg v d st src) np.id = pageById st np.id ∧
    pagesAtPath (processSource cfg v d st src) np.path = pagesAtPath st np.path ∧
    sectionsOfPage (processSource cfg v d st src) np.id = sectionsOfPage st np.id := by
  have hcore : np ∈ (processSourceCore cfg v d st src).1.pages ∧
      pageById (processSourceCore cfg v d st src).1 np.id = pageById st np.id ∧
      pagesAtPath (processSourceCore cfg v d st src).1 np.path = pagesAtPath st np.path ∧
      sectionsOfPage (processSourceCore cfg v d st src).1 np.id = sectionsOfPage st np.id := by
    unfold processSourceCore
    split
    · exact ⟨hmem, rfl, rfl, rfl⟩
    rename_i pmx hl
    split
    · exact ⟨hmem, rfl, rfl, rfl⟩
    rename_i ep hep
    have hepfacts := lookupPage_mem hep
    have hepne : ep.id ≠ np.id := by
      intro h
      have := wf_page_id_inj hwf hepfacts.1 hmem h
      rw [this] at hepfacts
      exact hpath hepfacts.2
    split
    · -- skip path
      refine ⟨?_, ?_, ?_, rfl⟩
      · show np ∈ st.pages.map _
        have hfix : (fun p =>
            if p.id = ep.id then { p with meta := pmx.meta, version := v, last_refresh := d }
            else p) np = np := by
          show (if np.id = ep.id then
              { np with meta := pmx.meta, version := v, last_refresh := d } else np) = np
          rw [if_neg (fun h => hepne h.symm)]
        rw [← hfix]
        exact List.mem_map_of_mem _ hmem
      · unfold pageById
        rw [show (pushInfo (updatePageSkip st ep.id pmx.meta v d) "SKIP" src.path).pages
            = st.pages.map _ from rfl]
        rw [filter_map_fix _ _ st.pages
          (fun x => by
            show decide ((if x.id = ep.id then
                { x with meta := pmx.meta, version := v, last_refresh := d } else x).id = np.id)
              = decide (x.id = np.id)
            by_cases h : x.id = ep.id
            · rw [if_pos h]
            · rw [if_neg h])
          (fun x hx hpx => by
            simp at hpx
            show (if x.id = ep.id then
                { x with meta := pmx.meta, version := v, last_refresh := d } else x) = x
            have hxnp : x = np := wf_page_id_inj hwf hx hmem hpx
            rw [if_neg (by rw [hxnp]; exact fun h => hepne h.symm)])]
      · unfold pagesAtPath
        rw [show (pushInfo (updatePageSkip st ep.id pmx.meta v d) "SKIP" src.path).pages
            = st.pages.map _ from rfl]
        rw [filter_map_fix _ _ st.pages
          (fun x => by
            show decide ((if x.id = ep.id then
                { x with meta := pmx.meta, version := v, last_refresh := d } else x).path = np.path)
              = decide (x.path = np.path)
            by_cases h : x.id = ep.id
            · rw [if_pos h]
            · rw [if_neg h])
          (fun x hx hpx => by
            simp at hpx
            show (if x.id = ep.id then
                { x with meta := pmx.meta, version := v, last_refresh := d } else x) = x
            rw [if_neg ?_]
            intro hxid
            have hxe : x = ep := wf_page_id_inj hwf hx hepfacts.1 hxid
            rw [hxe] at hpx
            rw [hepfacts.2] at hpx
            exact hpath hpx.symm)]
    · -- refresh path
      split
      · exact refreshTail_frame_page cfg v d st src pmx np hwf hmem hpath
      · have hD := refreshTail_frame_page cfg v d
          (pushInfo (deleteSectionsByPageId st ep.id) "UPDATE" src.path) src pmx np
          (delete_wf st ep.id "UPDATE" src.path hwf) hmem hpath
        refine ⟨hD.1, ?_, ?_, ?_⟩
        · rw [hD.2.1]
          rfl
        · rw [hD.2.2.1]
          rfl
        · rw [hD.2.2.2]
          show sectionsOfPage (deleteSectionsByPageId st ep.id) np.id = _
          exact sectionsOfPage_delete_other st ep.id np.id hepne
  unfold processSource
  split
  · rename_i st1 heq
    have : (processSourceCore cfg v d st src).1 = st1 := by rw [heq]
    rw [this] at hcore
    exact hcore
  · rename_i st1 e heq
    have : (processSourceCore cfg v d st src).1 = st1 := by rw [heq]
    rw [this] at hcore
    exact hcore

/-- Folding the loop over sources at other paths preserves a page and
its sections. -/
theorem runLoop_frame_page (cfg : RunCfg) (v d : Nat) :
    ∀ (sources : List SourceData) (st : St) (np : Page), WfSt st → v < st.nextId →
      np ∈ st.pages → (∀ t ∈ sources, t.path ≠ np.path) →
      np ∈ (runLoop cfg v d st sources).pages ∧
      pageById (runLoop cfg v d st sources) np.id = pageById st np.id ∧
      pagesAtPath (runLoop cfg v d st sources) np.path = pagesAtPath st np.path ∧
      sectionsOfPage (runLoop cfg v d st sources) np.id = sectionsOfPage st np.id := by
  intro sources
  induction sources with
  | nil => intro st np _ _ hmem _; exact ⟨hmem, rfl, rfl, rfl⟩
  | cons s rest ih =>
    intro st np hwf hv hmem hdist
    rw [runLoop_cons]
    have hstep := processSource_frame_page cfg v d st s np hwf hmem
      (fun h => hdist s (List.mem_cons_self s rest) h.symm)
    have hwf2 := processSource_wf cfg v d st s hwf hv
    have hmono := processSource_nextId_le cfg v d st s
    rcases ih (processSource cfg v d st s) np hwf2 (Nat.lt_of_lt_of_le hv hmono) hstep.1
      (fun t ht => hdist t (List.mem_cons_of_mem s ht)) with ⟨h1, h2, h3, h4⟩
    exact ⟨h1, by rw [h2, hstep.2.1], by rw [h3, hstep.2.2.1], by rw [h4, hstep.2.2.2]⟩

theorem log_insertNewPage (st : St) (src : SourceData) (pmx : ProcessedMdx) (v d : Nat) :
    (insertNewPage st src pmx v d).log = st.log ++ [LogEntry.infoEntry "EMBED" src.path] := rfl

theorem refreshTail_log (cfg : RunCfg) (v d : Nat) (st : St) (src : SourceData)
    (pmx : ProcessedMdx) : ∃ t, (refreshTail cfg v d st src pmx).1.log = st.log ++ t := by
  obtain ⟨_, hlog, _, _, _, _⟩ :=
    embedSections_state cfg st.nextId pmx.sections (insertNewPage st src pmx v d)
  rw [log_insertNewPage] at hlog
  unfold refreshTail
  split
  all_goals rename_i st2 heq
  · have hfst : (embedSections cfg st.nextId (insertNewPage st src pmx v d) pmx.sections).1 = st2 := by
      rw [heq]
    rw [hfst] at hlog
    exact ⟨[LogEntry.infoEntry "EMBED" src.path], hlog⟩
  · have hfst : (embedSections cfg st.nextId (insertNewPage st src pmx v d) pmx.sections).1 = st2 := by
      rw [heq]
    rw [hfst] at hlog
    refine ⟨[LogEntry.infoEntry "EMBED" src.path, LogEntry.errorEntry "EMBED" src.path], ?_⟩
    show st2.log ++ [LogEntry.errorEntry "EMBED" src.path] = _
    rw [hlog]
    simp

theorem processSource_log (cfg : RunCfg) (v d : Nat) (st : St) (src : SourceData) :
    ∃ t, (processSource cfg v d st src).log = st.log ++ t := by
  have hcore : ∃ t, (processSourceCore cfg v d st src).1.log = st.log ++ t := by
    unfold processSourceCore
    split
    · exact ⟨[], by simp⟩
    rename_i pmx hl
    split
    · exact ⟨[], by simp⟩
    rename_i ep hep
    split
    · exact ⟨[LogEntry.infoEntry "SKIP" src.path], rfl⟩
    · split
      · exact refreshTail_log cfg v d st src pmx
      · rcases refreshTail_log cfg v d
          (pushInfo (deleteSectionsByPageId st ep.id) "UPDATE" src.path) src pmx with ⟨t, ht⟩
        refine ⟨[LogEntry.infoEntry "UPDATE" src.path] ++ t, ?_⟩
        rw [ht]
        show (st.log ++ [LogEntry.infoEntry "UPDATE" src.path]) ++ t = _
        simp
  rcases hcore with ⟨t, ht⟩
  unfold processSource
  split
  · rename_i st1 heq
    have : (processSourceCore cfg v d st src).1 = st1 := by rw [heq]
    rw [this] at ht
    exact ⟨t, ht⟩
  · rename_i st1 e heq
    have : (processSourceCore cfg v d st src).1 = st1 := by rw [heq]
    rw [this] at ht
    refine ⟨t ++ [LogEntry.errorEntry "PROCESS" src.path], ?_⟩
    show st1.log ++ [LogEntry.errorEntry "PROCESS" src.path] = _
    rw [ht]
    simp

theorem runLoop_log (cfg : RunCfg) (v d : Nat) :
    ∀ (sources : List SourceData) (st : St),
      ∃ t, (runLoop cfg v d st sources).log = st.log ++ t := by
  intro sources
  induction sources with
  | nil => intro st; exact ⟨[], by simp [runLoop]⟩
  | cons s rest ih =>
    intro st
    rw [runLoop_cons]
    rcases processSource_log cfg v d st s with ⟨t1, h1⟩
    rcases ih (processSource cfg v d st s) with ⟨t2, h2⟩
    refine ⟨t1 ++ t2, ?_⟩
    rw [h2, h1]
    simp

/-- The skip path characterized: the existing row is updated in place
(meta, version, date only) and its sections stay. -/
theorem processSource_skip_result (cfg : RunCfg) (v d : Nat) (st : St) (src : SourceData)
    (pmx : ProcessedMdx) (ep : Page)
    (hl : loadMarkdownSource cfg src = some pmx)
    (hflag : cfg.shouldRefreshAllPages = false)
    (hsingle : pagesAtPath st src.path = [ep])
    (hsum : ep.checksum = some pmx.checksum) :
    pagesAtPath (processSource cfg v d st src) src.path =
      [{ ep with meta := pmx.meta, version := v, last_refresh := d }] ∧
    sectionsOfPage (processSource cfg v d st src) ep.id = sectionsOfPage st ep.id := by
  have hlook : lookupPageByPath st.pages src.path = some ep := by
    rw [lookupPageByPath_eq_head]
    unfold pagesAtPath at hsingle
    rw [hsingle]
    rfl
  have hstep := processSource_of_core_ok cfg v d st _ src
    (processSourceCore_skip cfg v d st src pmx ep hl hlook hflag hsum)
  refine ⟨?_, ?_⟩
  · rw [hstep]
    unfold pagesAtPath
    rw [show (pushInfo (updatePageSkip st ep.id pmx.meta v d) "SKIP" src.path).pages
        = st.pages.map _ from rfl]
    rw [filter_map_comm _ _ (fun x => by
      show decide ((if x.id = ep.id then
          { x with meta := pmx.meta, version := v, last_refresh := d } else x).path = src.path)
        = decide (x.path = src.path)
      by_cases h : x.id = ep.id
      · rw [if_pos h]
      · rw [if_neg h])]
    unfold pagesAtPath at hsingle
    rw [hsingle]
    simp only [List.map_cons, List.map_nil]
    simp
  · rw [hstep]
    rfl

/-- The refresh path characterized: a fresh row is inserted with a null
checksum; if every section embeds, the rows for all sections exist and
the checksum is set; if one section fails, exactly the earlier sections'
rows exist and the checksum stays null. -/
theorem processSource_refresh_result (cfg : RunCfg) (v d : Nat) (st : St) (src : SourceData)
    (pmx : ProcessedMdx) (ep : Page) (hwf : WfSt st)
    (hl : loadMarkdownSource cfg src = some pmx)
    (hsingle : pagesAtPath st src.path = [ep])
    (hdiff : ¬ep.checksum = some pmx.checksum) :
    ((∀ sec ∈ pmx.sections, cfg.embed (replaceNewlines sec.content) ≠ none) →
       pageById (processSource cfg v d st src) st.nextId =
         [{ newPageOf st src pmx v d with checksum := some pmx.checksum }] ∧
       (sectionsOfPage (processSource cfg v d st src) st.nextId).map PageSection.content =
         pmx.sections.map SectionData.content) ∧
    (∀ done bad rest, pmx.sections = done ++ bad :: rest →
       (∀ sec ∈ done, cfg.embed (replaceNewlines sec.content) ≠ none) →
       cfg.embed (replaceNewlines bad.content) = none →
       pageById (processSource cfg v d st src) st.nextId = [newPageOf st src pmx v d] ∧
       (sectionsOfPage (processSource cfg v d st src) st.nextId).map PageSection.content =
         done.map SectionData.content) := by
  have hlook : lookupPageByPath st.pages src.path = some ep := by
    rw [lookupPageByPath_eq_head]
    unfold pagesAtPath at hsingle
    rw [hsingle]
    rfl
  have hcore := processSourceCore_refresh cfg v d st src pmx ep hl hlook hdiff
  have hDnext : (pushInfo (deleteSectionsByPageId st ep.id) "UPDATE" src.path).nextId
      = st.nextId := rfl
  have hnp : newPageOf (pushInfo (deleteSectionsByPageId st ep.id) "UPDATE" src.path) src pmx v d
      = newPageOf st src pmx v d := rfl
  have hnpid : (newPageOf st src pmx v d).id = st.nextId := rfl
  -- the inserted state
  have hA : pageById
      (insertNewPage (pushInfo (deleteSectionsByPageId st ep.id) "UPDATE" src.path) src pmx v d)
      st.nextId = [newPageOf st src pmx v d] := by
    unfold pageById
    rw [pages_insertNewPage, List.filter_append]
    have h1 : (pushInfo (deleteSectionsByPageId st ep.id) "UPDATE" src.path).pages.filter
        (fun p => decide (p.id = st.nextId)) = [] := by
      apply List.filter_eq_nil_iff.mpr
      intro p hp
      have hp2 : p ∈ st.pages := hp
      simp only [decide_eq_true_eq]
      exact Nat.ne_of_lt (hwf.2.1 p hp2)
    rw [h1, hnp]
    simp only [List.nil_append, List.filter_cons]
    rw [show decide ((newPageOf st src pmx v d).id = st.nextId) = true from by
      rw [hnpid]
      simp]
    rfl
  have hB : sectionsOfPage
      (insertNewPage (pushInfo (deleteSectionsByPageId st ep.id) "UPDATE" src.path) src pmx v d)
      st.nextId = [] := by
    unfold sectionsOfPage
    rw [pageSections_insertNewPage]
    apply List.filter_eq_nil_iff.mpr
    intro s hs
    have hs2 : s ∈ st.pageSections := List.mem_of_mem_filter hs
    simp only [decide_eq_true_eq]
    exact Nat.ne_of_lt (hwf.2.2.2 s hs2)
  obtain ⟨hpagesE, hlogE, hnextE, rowsE, hsecsE, hrowsE⟩ :=
    embedSections_state cfg st.nextId pmx.sections
      (insertNewPage (pushInfo (deleteSectionsByPageId st ep.id) "UPDATE" src.path) src pmx v d)
  constructor
  · -- every section embeds
    intro hok
    obtain ⟨hb, rows, hsec2, hcont, hrows⟩ := embedSections_ok cfg st.nextId pmx.sections
      (insertNewPage (pushInfo (deleteSectionsByPageId st ep.id) "UPDATE" src.path) src pmx v d)
      hok
    have hres : embedSections cfg st.nextId
        (insertNewPage (pushInfo (deleteSectionsByPageId st ep.id) "UPDATE" src.path) src pmx v d)
        pmx.sections
        = ((embedSections cfg st.nextId
            (insertNewPage (pushInfo (deleteSectionsByPageId st ep.id) "UPDATE" src.path)
              src pmx v d) pmx.sections).1, true) := by
      rw [← hb]
    have hrt : refreshTail cfg v d
        (pushInfo (deleteSectionsByPageId st ep.id) "UPDATE" src.path) src pmx
        = (setPageChecksum
            (embedSections cfg st.nextId
              (insertNewPage (pushInfo (deleteSectionsByPageId st ep.id) "UPDATE" src.path)
                src pmx v d) pmx.sections).1 st.nextId pmx.checksum, none) := by
      unfold refreshTail
      rw [hDnext, hres]
    have hps : processSource cfg v d st src
        = setPageChecksum
            (embedSections cfg st.nextId
              (insertNewPage (pushInfo (deleteSectionsByPageId st ep.id) "UPDATE" src.path)
                src pmx v d) pmx.sections).1 st.nextId pmx.checksum :=
      processSource_of_core_ok cfg v d st _ src (by rw [hcore, hrt])
    rw [hps]
    constructor
    · unfold pageById
      rw [show (setPageChecksum
          (embedSections cfg st.nextId
            (insertNewPage (pushInfo (deleteSectionsByPageId st ep.id) "UPDATE" src.path)
              src pmx v d) pmx.sections).1 st.nextId pmx.checksum).pages
        = (embedSections cfg st.nextId
            (insertNewPage (pushInfo (deleteSectionsByPageId st ep.id) "UPDATE" src.path)
              src pmx v d) pmx.sections).1.pages.map
          (fun p => if p.id = st.nextId then { p with checksum := some pmx.checksum } else p)
        from rfl]
      rw [filter_map_comm _ _ (fun x => by
        show decide ((if x.id = st.nextId then { x with checksum := some pmx.checksum } else x).id
            = st.nextId) = decide (x.id = st.nextId)
        by_cases h : x.id = st.nextId
        · rw [if_pos h]
        · rw [if_neg h])]
      rw [hpagesE]
      unfold pageById at hA
      rw [hA]
      simp only [List.map_cons, List.map_nil]
      rw [show (if (newPageOf st src pmx v d).id = st.nextId then
          { newPageOf st src pmx v d with checksum := some pmx.checksum }
          else newPageOf st src pmx v d)
        = { newPageOf st src pmx v d with checksum := some pmx.checksum } from if_pos hnpid]
    · have hsecfinal : sectionsOfPage
          (setPageChecksum
            (embedSections cfg st.nextId
              (insertNewPage (pushInfo (deleteSectionsByPageId st ep.id) "UPDATE" src.path)
                src pmx v d) pmx.sections).1 st.nextId pmx.checksum) st.nextId = rows := by
        unfold sectionsOfPage
        rw [show (setPageChecksum
            (embedSections cfg st.nextId
              (insertNewPage (pushInfo (deleteSectionsByPageId st ep.id) "UPDATE" src.path)
                src pmx v d) pmx.sections).1 st.nextId pmx.checksum).pageSections
          = (embedSections cfg st.nextId
              (insertNewPage (pushInfo (deleteSectionsByPageId st ep.id) "UPDATE" src.path)
                src pmx v d) pmx.sections).1.pageSections from rfl]
        rw [hsec2, List.filter_append]
        unfold sectionsOfPage at hB
        rw [hB]
        rw [List.filter_eq_self.mpr (fun r hr => by
          simp only [decide_eq_true_eq]
          exact hrows r hr)]
        simp
      rw [hsecfinal, hcont]
  · -- a section fails to embed
    intro done bad rest hsplit hok hbad
    obtain ⟨hb, rows, hsec2, hcont, hrows⟩ := embedSections_fail cfg st.nextId done bad rest
      (insertNewPage (pushInfo (deleteSectionsByPageId st ep.id) "UPDATE" src.path) src pmx v d)
      hok hbad
    rw [← hsplit] at hb hsec2
    have hres : embedSections cfg st.nextId
        (insertNewPage (pushInfo (deleteSectionsByPageId st ep.id) "UPDATE" src.path) src pmx v d)
        pmx.sections
        = ((embedSections cfg st.nextId
            (insertNewPage (pushInfo (deleteSectionsByPageId st ep.id) "UPDATE" src.path)
              src pmx v d) pmx.sections).1, false) := by
      rw [← hb]
    have hrt : refreshTail cfg v d
        (pushInfo (deleteSectionsByPageId st ep.id) "UPDATE" src.path) src pmx
        = (pushError
            (embedSections cfg st.nextId
              (insertNewPage (pushInfo (deleteSectionsByPageId st ep.id) "UPDATE" src.path)
                src pmx v d) pmx.sections).1 "EMBED" src.path, some "embedding call failed") := by
      unfold refreshTail
      rw [hDnext, hres]
    have hps : processSource cfg v d st src
        = pushError (pushError
            (embedSections cfg st.nextId
              (insertNewPage (pushInfo (deleteSectionsByPageId st ep.id) "UPDATE" src.path)
                src pmx v d) pmx.sections).1 "EMBED" src.path) "PROCESS" src.path :=
      processSource_of_core_err cfg v d st _ src _ (by rw [hcore, hrt])
    rw [hps]
    constructor
    · unfold pageById
      rw [show (pushError (pushError
          (embedSections cfg st.nextId
            (insertNewPage (pushInfo (deleteSectionsByPageId st ep.id) "UPDATE" src.path)
              src pmx v d) pmx.sections).1 "EMBED" src.path) "PROCESS" src.path).pages
        = (embedSections cfg st.nextId
            (insertNewPage (pushInfo (deleteSectionsByPageId st ep.id) "UPDATE" src.path)
              src pmx v d) pmx.sections).1.pages from rfl]
      rw [hpagesE]
      unfold pageById at hA
      exact hA
    · have hsecfinal : sectionsOfPage (pushError (pushError
          (embedSections cfg st.nextId
            (insertNewPage (pushInfo (deleteSectionsByPageId st ep.id) "UPDATE" src.path)
              src pmx v d) pmx.sections).1 "EMBED" src.path) "PROCESS" src.path) st.nextId
          = rows := by
        unfold sectionsOfPage
        rw [show (pushError (pushError
            (embedSections cfg st.nextId
              (insertNewPage (pushInfo (deleteSectionsByPageId st ep.id) "UPDATE" src.path)
                src pmx v d) pmx.sections).1 "EMBED" src.path) "PROCESS" src.path).pageSections
          = (embedSections cfg st.nextId
              (insertNewPage (pushInfo (deleteSectionsByPageId st ep.id) "UPDATE" src.path)
                src pmx v d) pmx.sections).1.pageSections from rfl]
        rw [hsec2, List.filter_append]
        unfold sectionsOfPage at hB
        rw [hB]
        rw [List.filter_eq_self.mpr (fun r hr => by
          simp only [decide_eq_true_eq]
          exact hrows r hr)]
        simp
      rw [hsecfinal, hcont]

/-- C4: a source whose stored checksum equals the recomputed one, with
the force flag off, has its Document updated in place with only meta,
version stamp and refresh date changed - id, path, checksum and parent
fields are those of the old row - and its section rows survive the whole
run unchanged, provided no other source of the run shares its path. -/
theorem c4_unchanged_source_keeps_sections (cfg : RunCfg) (d : Nat) (st : St)
    (pre post : List SourceData) (s : SourceData) (ep : Page) (pmx : ProcessedMdx)
    (hflag : cfg.shouldRefreshAllPages = false)
    (hwf : WfSt st)
    (hpre : ∀ t ∈ pre, t.path ≠ s.path)
    (hpost : ∀ t ∈ post, t.path ≠ s.path)
    (hload : loadMarkdownSource cfg s = some pmx)
    (hsingle : pagesAtPath st s.path = [ep])
    (hsum : ep.checksum = some pmx.checksum) :
    pagesAtPath (generateEmbeddings cfg d st (pre ++ s :: post)) s.path =
      [{ ep with meta := pmx.meta, version := st.nextId, last_refresh := d }] ∧
    sectionsOfPage (generateEmbeddings cfg d st (pre ++ s :: post)) ep.id =
      sectionsOfPage st ep.id := by
  have hwf0 : WfSt { st with nextId := st.nextId + 1 } := bump_wf st hwf
  have hv0 : st.nextId < ({ st with nextId := st.nextId + 1 } : St).nextId := Nat.lt_succ_self _
  have hep := mem_of_pagesAtPath hsingle
  have hpre' : ∀ t ∈ pre, t.path ≠ ep.path := by
    intro t ht
    rw [hep.2]
    exact hpre t ht
  obtain ⟨hmemPre, hidPre, hpathPre, hsecPre⟩ :=
    runLoop_frame_page cfg st.nextId d pre { st with nextId := st.nextId + 1 } ep hwf0 hv0
      hep.1 hpre'
  obtain ⟨hwfPre, hnextPre⟩ := runLoop_wf cfg st.nextId d pre { st with nextId := st.nextId + 1 }
    hwf0 hv0
  have hsinglePre :
      pagesAtPath (runLoop cfg st.nextId d { st with nextId := st.nextId + 1 } pre) s.path
        = [ep] := by
    rw [← hep.2] at hsingle ⊢
    rw [hpathPre]
    exact hsingle
  have hskip := processSource_skip_result cfg st.nextId d
    (runLoop cfg st.nextId d { st with nextId := st.nextId + 1 } pre) s pmx ep
    hload hflag hsinglePre hsum
  have hwfS : WfSt (processSource cfg st.nextId d
      (runLoop cfg st.nextId d { st with nextId := st.nextId + 1 } pre) s) :=
    processSource_wf cfg st.nextId d _ s hwfPre (Nat.lt_of_lt_of_le hv0 hnextPre)
  have hvS : st.nextId < (processSource cfg st.nextId d
      (runLoop cfg st.nextId d { st with nextId := st.nextId + 1 } pre) s).nextId :=
    Nat.lt_of_lt_of_le (Nat.lt_of_lt_of_le hv0 hnextPre) (processSource_nextId_le cfg st.nextId d _ s)
  have hmemS := (mem_of_pagesAtPath hskip.1).1
  have heppath : ({ ep with meta := pmx.meta, version := st.nextId, last_refresh := d } : Page).path
      = s.path := hep.2
  have hpost' : ∀ t ∈ post,
      t.path ≠ ({ ep with meta := pmx.meta, version := st.nextId, last_refresh := d } : Page).path := by
    intro t ht
    rw [heppath]
    exact hpost t ht
  obtain ⟨hmemEnd, hidEnd, hpathEnd, hsecEnd⟩ :=
    runLoop_frame_page cfg st.nextId d post
      (processSource cfg st.nextId d
        (runLoop cfg st.nextId d { st with nextId := st.nextId + 1 } pre) s)
      { ep with meta := pmx.meta, version := st.nextId, last_refresh := d }
      hwfS hvS hmemS hpost'
  rw [generateEmbeddings_no_flag cfg d st (pre ++ s :: post) hflag, runLoop_append, runLoop_cons]
  constructor
  · rw [pagesAtPath_prune_keep]
    · rw [heppath] at hpathEnd
      rw [hpathEnd]
      exact hskip.1
    · intro p hp
      rw [heppath] at hpathEnd
      rw [hpathEnd, hskip.1] at hp
      simp only [List.mem_singleton] at hp
      rw [hp]
  · rw [sectionsOfPage_prune]
    have hidend2 : sectionsOfPage
        (runLoop cfg st.nextId d
          (processSource cfg st.nextId d
            (runLoop cfg st.nextId d { st with nextId := st.nextId + 1 } pre) s) post) ep.id
        = sectionsOfPage (processSource cfg st.nextId d
            (runLoop cfg st.nextId d { st with nextId := st.nextId + 1 } pre) s) ep.id := hsecEnd
    rw [hidend2, hskip.2, hsecPre]
    rfl

/-- C1: on the refresh path (stored checksum differs from the recomputed
one), the run inserts the source's Document row with a NULL checksum and
writes the recomputed checksum exactly when every section embedding call
succeeded; if one call fails, the row still present at the end of the
run keeps checksum NULL and only the sections before the failing one
have rows, so the next run redoes the page. -/
theorem c1_checksum_null_until_embedding_success (cfg : RunCfg) (d : Nat) (st : St)
    (pre post : List SourceData) (s : SourceData) (ep : Page) (pmx : ProcessedMdx)
    (hflag : cfg.shouldRefreshAllPages = false)
    (hwf : WfSt st)
    (hpre : ∀ t ∈ pre, t.path ≠ s.path)
    (hpost : ∀ t ∈ post, t.path ≠ s.path)
    (hload : loadMarkdownSource cfg s = some pmx)
    (hsingle : pagesAtPath st s.path = [ep])
    (hdiff : ¬ep.checksum = some pmx.checksum) :
    ((∀ sec ∈ pmx.sections, cfg.embed (replaceNewlines sec.content) ≠ none) →
       ∃ np, pageById (generateEmbeddings cfg d st (pre ++ s :: post))
           (runLoop cfg st.nextId d { st with nextId := st.nextId + 1 } pre).nextId = [np] ∧
         np.path = s.path ∧ np.version = st.nextId ∧ np.checksum = some pmx.checksum ∧
         np.meta = pmx.meta ∧ np.last_refresh = d ∧
         (sectionsOfPage (generateEmbeddings cfg d st (pre ++ s :: post)) np.id).map
             PageSection.content = pmx.sections.map SectionData.content) ∧
    (∀ done bad rest, pmx.sections = done ++ bad :: rest →
       (∀ sec ∈ done, cfg.embed (replaceNewlines sec.content) ≠ none) →
       cfg.embed (replaceNewlines bad.content) = none →
       ∃ np, pageById (generateEmbeddings cfg d st (pre ++ s :: post))
           (runLoop cfg st.nextId d { st with nextId := st.nextId + 1 } pre).nextId = [np] ∧
         np.path = s.path ∧ np.version = st.nextId ∧ np.checksum = none ∧
         (sectionsOfPage (generateEmbeddings cfg d st (pre ++ s :: post)) np.id).map
             PageSection.content = done.map SectionData.content) := by
  have hwf0 : WfSt { st with nextId := st.nextId + 1 } := bump_wf st hwf
  have hv0 : st.nextId < ({ st with nextId := st.nextId + 1 } : St).nextId := Nat.lt_succ_self _
  have hep := mem_of_pagesAtPath hsingle
  have hpre' : ∀ t ∈ pre, t.path ≠ ep.path := by
    intro t ht
    rw [hep.2]
    exact hpre t ht
  obtain ⟨hmemPre, hidPre, hpathPre, hsecPre⟩ :=
    runLoop_frame_page cfg st.nextId d pre { st with nextId := st.nextId + 1 } ep hwf0 hv0
      hep.1 hpre'
  obtain ⟨hwfPre, hnextPre⟩ := runLoop_wf cfg st.nextId d pre
    { st with nextId := st.nextId + 1 } hwf0 hv0
  have hvPre : st.nextId <
      (runLoop cfg st.nextId d { st with nextId := st.nextId + 1 } pre).nextId :=
    Nat.lt_of_lt_of_le hv0 hnextPre
  have hsinglePre :
      pagesAtPath (runLoop cfg st.nextId d { st with nextId := st.nextId + 1 } pre) s.path
        = [ep] := by
    rw [← hep.2] at hsingle ⊢
    rw [hpathPre]
    exact hsingle
  have hres := processSource_refresh_result cfg st.nextId d
    (runLoop cfg st.nextId d { st with nextId := st.nextId + 1 } pre) s pmx ep
    hwfPre hload hsinglePre hdiff
  have hwfS : WfSt (processSource cfg st.nextId d
      (runLoop cfg st.nextId d { st with nextId := st.nextId + 1 } pre) s) :=
    processSource_wf cfg st.nextId d _ s hwfPre hvPre
  have hvS : st.nextId < (processSource cfg st.nextId d
      (runLoop cfg st.nextId d { st with nextId := st.nextId + 1 } pre) s).nextId :=
    Nat.lt_of_lt_of_le hvPre (processSource_nextId_le cfg st.nextId d _ s)
  rw [generateEmbeddings_no_flag cfg d st (pre ++ s :: post) hflag, runLoop_append, runLoop_cons]
  constructor
  · intro hall
    obtain ⟨h1, h2⟩ := hres.1 hall
    have hmemS : ({ newPageOf (runLoop cfg st.nextId d { st with nextId := st.nextId + 1 } pre)
        s pmx st.nextId d with checksum := some pmx.checksum } : Page) ∈
        (processSource cfg st.nextId d
          (runLoop cfg st.nextId d { st with nextId := st.nextId + 1 } pre) s).pages := by
      have hx : ({ newPageOf (runLoop cfg st.nextId d { st with nextId := st.nextId + 1 } pre)
          s pmx st.nextId d with checksum := some pmx.checksum } : Page) ∈
          pageById (processSource cfg st.nextId d
            (runLoop cfg st.nextId d { st with nextId := st.nextId + 1 } pre) s)
            (runLoop cfg st.nextId d { st with nextId := st.nextId + 1 } pre).nextId := by
        rw [h1]
        exact List.mem_singleton_self _
      unfold pageById at hx
      exact (List.mem_filter.mp hx).1
    have hdistPost : ∀ t ∈ post, t.path ≠
        ({ newPageOf (runLoop cfg st.nextId d { st with nextId := st.nextId + 1 } pre)
          s pmx st.nextId d with checksum := some pmx.checksum } : Page).path := by
      intro t ht
      exact hpost t ht
    obtain ⟨hmemEnd, hidEnd, hpathEnd, hsecEnd⟩ :=
      runLoop_frame_page cfg st.nextId d post
        (processSource cfg st.nextId d
          (runLoop cfg st.nextId d { st with nextId := st.nextId + 1 } pre) s)
        { newPageOf (runLoop cfg st.nextId d { st with nextId := st.nextId + 1 } pre)
          s pmx st.nextId d with checksum := some pmx.checksum }
        hwfS hvS hmemS hdistPost
    have hidEnd' : pageById
        (runLoop cfg st.nextId d
          (processSource cfg st.nextId d
            (runLoop cfg st.nextId d { st with nextId := st.nextId + 1 } pre) s) post)
        (runLoop cfg st.nextId d { st with nextId := st.nextId + 1 } pre).nextId =
        pageById (processSource cfg st.nextId d
          (runLoop cfg st.nextId d { st with nextId := st.nextId + 1 } pre) s)
        (runLoop cfg st.nextId d { st with nextId := st.nextId + 1 } pre).nextId := hidEnd
    refine ⟨{ newPageOf (runLoop cfg st.nextId d { st with nextId := st.nextId + 1 } pre)
        s pmx st.nextId d with checksum := some pmx.checksum }, ?_, rfl, rfl, rfl, rfl, rfl, ?_⟩
    · rw [pageById_prune_keep]
      · rw [hidEnd']
        exact h1
      · intro p hp
        rw [hidEnd', h1] at hp
        simp only [List.mem_singleton] at hp
        rw [hp]
        rfl
    · rw [sectionsOfPage_prune, hsecEnd]
      exact h2
  · intro done bad rest hsplit hok hbad
    obtain ⟨h1, h2⟩ := hres.2 done bad rest hsplit hok hbad
    have hmemS : newPageOf (runLoop cfg st.nextId d { st with nextId := st.nextId + 1 } pre)
        s pmx st.nextId d ∈
        (processSource cfg st.nextId d
          (runLoop cfg st.nextId d { st with nextId := st.nextId + 1 } pre) s).pages := by
      have hx : newPageOf (runLoop cfg st.nextId d { st with nextId := st.nextId + 1 } pre)
          s pmx st.nextId d ∈
          pageById (processSource cfg st.nextId d
            (runLoop cfg st.nextId d { st with nextId := st.nextId + 1 } pre) s)
            (runLoop cfg st.nextId d { st with nextId := st.nextId + 1 } pre).nextId := by
        rw [h1]
        exact List.mem_singleton_self _
      unfold pageById at hx
      exact (List.mem_filter.mp hx).1
    have hdistPost : ∀ t ∈ post, t.path ≠
        (newPageOf (runLoop cfg st.nextId d { st with nextId := st.nextId + 1 } pre)
          s pmx st.nextId d).path := by
      intro t ht
      exact hpost t ht
    obtain ⟨hmemEnd, hidEnd, hpathEnd, hsecEnd⟩ :=
      runLoop_frame_page cfg st.nextId d post
        (processSource cfg st.nextId d
          (runLoop cfg st.nextId d { st with nextId := st.nextId + 1 } pre) s)
        (newPageOf (runLoop cfg st.nextId d { st with nextId := st.nextId + 1 } pre)
          s pmx st.nextId d)
        hwfS hvS hmemS hdistPost
    have hidEnd' : pageById
        (runLoop cfg st.nextId d
          (processSource cfg st.nextId d
            (runLoop cfg st.nextId d { st with nextId := st.nextId + 1 } pre) s) post)
        (runLoop cfg st.nextId d { st with nextId := st.nextId + 1 } pre).nextId =
        pageById (processSource cfg st.nextId d
          (runLoop cfg st.nextId d { st with nextId := st.nextId + 1 } pre) s)
        (runLoop cfg st.nextId d { st with nextId := st.nextId + 1 } pre).nextId := hidEnd
    refine ⟨newPageOf (runLoop cfg st.nextId d { st with nextId := st.nextId + 1 } pre)
        s pmx st.nextId d, ?_, rfl, rfl, rfl, ?_⟩
    · rw [pageById_prune_keep]
      · rw [hidEnd']
        exact h1
      · intro p hp
        rw [hidEnd', h1] at hp
        simp only [List.mem_singleton] at hp
        rw [hp]
        rfl
    · rw [sectionsOfPage_prune, hsecEnd]
      exact h2

/-- C6: an error raised while processing one source is caught at the
loop boundary: it is logged as a PROCESS error with that source's path
in the final store, and the run carries on - the remaining sources are
processed from the caught state and the end-of-run pruning step still
executes. -/
theorem c6_source_error_is_isolated (cfg : RunCfg) (d : Nat) (st : St)
    (pre post : List SourceData) (s : SourceData) (stS : St) (e : String)
    (hflag : cfg.shouldRefreshAllPages = false)
    (hcore : processSourceCore cfg st.nextId d
        (runLoop cfg st.nextId d { st with nextId := st.nextId + 1 } pre) s = (stS, some e)) :
    generateEmbeddings cfg d st (pre ++ s :: post) =
      pruneOutdated st.nextId
        (runLoop cfg st.nextId d (pushError stS "PROCESS" s.path) post) ∧
    LogEntry.errorEntry "PROCESS" s.path ∈
      (generateEmbeddings cfg d st (pre ++ s :: post)).log := by
  have hps := processSource_of_core_err cfg st.nextId d
    (runLoop cfg st.nextId d { st with nextId := st.nextId + 1 } pre) stS s e hcore
  have hgen : generateEmbeddings cfg d st (pre ++ s :: post) =
      pruneOutdated st.nextId
        (runLoop cfg st.nextId d (pushError stS "PROCESS" s.path) post) := by
    rw [generateEmbeddings_no_flag cfg d st (pre ++ s :: post) hflag, runLoop_append,
      runLoop_cons, hps]
  refine ⟨hgen, ?_⟩
  rw [hgen]
  rcases log_pruneOutdated st.nextId
    (runLoop cfg st.nextId d (pushError stS "PROCESS" s.path) post) with ⟨t2, h2⟩
  rcases runLoop_log cfg st.nextId d post (pushError stS "PROCESS" s.path) with ⟨t1, h1⟩
  rw [h2, h1]
  have hlog : (pushError stS "PROCESS" s.path).log
      = stS.log ++ [LogEntry.errorEntry "PROCESS" s.path] := rfl
  rw [hlog]
  simp

def srcB : SourceData := { path := "/b", parentPath := none }

/-- Witness for C6 at a concrete run: over the empty store the source
"/a" throws (no existing row to dereference); the error is logged with
path "/a" and the run continues with "/b" and the pruning step. -/
theorem c6_witness :
    generateEmbeddings cfgC2 99 emptySt ([] ++ srcA :: [srcB]) =
      pruneOutdated emptySt.nextId
        (runLoop cfgC2 emptySt.nextId 99
          (pushError { emptySt with nextId := emptySt.nextId + 1 } "PROCESS" srcA.path)
          [srcB]) ∧
    LogEntry.errorEntry "PROCESS" srcA.path ∈
      (generateEmbeddings cfgC2 99 emptySt ([] ++ srcA :: [srcB])).log :=
  c6_source_error_is_isolated cfgC2 99 emptySt [] [srcB] srcA
    { emptySt with nextId := emptySt.nextId + 1 }
    "TypeError: cannot read id of undefined existingPage" (by decide) (by decide)

/-- A configuration whose document at "/a" parses into two heading
sections "A" and "B", and whose embedding endpoint fails on "B". -/
def cfgC1W : RunCfg :=
  { shouldRefreshAllPages := false
    fs := fun p => if p = "/a" then some "bodyA" else none
    hash := fun c => "h-" ++ c
    parse := fun _ => [{ nodeType := "heading", nodeText := "A" },
                       { nodeType := "heading", nodeText := "B" }]
    toMd := fun ns => String.join (ns.map MNode.nodeText)
    metaOf := fun _ => "{}"
    slugify := fun s => s
    embed := fun c => if c = "B" then none else some ([1], 5) }

def secDataA1 : SectionData := { content := "A", heading := some "A", slug := some "A" }

def secDataB1 : SectionData := { content := "B", heading := some "B", slug := some "B" }

/-- What loadMarkdownSource produces for "/a" under cfgC1W. -/
def pmxC1 : ProcessedMdx :=
  { checksum := "h-bodyA", meta := "{}", sections := [secDataA1, secDataB1] }

/-- Witness for C1 at a concrete run: over the one-page store stC2 the
changed document "/a" splits into sections "A" and "B"; embedding fails
on "B", and the run ends with the fresh Document row still holding a
NULL checksum while only section "A" has a row. -/
theorem c1_witness :
    ∃ np, pageById (generateEmbeddings cfgC1W 99 stC2 ([] ++ srcA :: []))
        (runLoop cfgC1W stC2.nextId 99 { stC2 with nextId := stC2.nextId + 1 } []).nextId
        = [np] ∧
      np.path = srcA.path ∧ np.version = stC2.nextId ∧ np.checksum = none ∧
      (sectionsOfPage (generateEmbeddings cfgC1W 99 stC2 ([] ++ srcA :: [])) np.id).map
          PageSection.content = [secDataA1].map SectionData.content :=
  (c1_checksum_null_until_embedding_success cfgC1W 99 stC2 [] [] srcA pageA1 pmxC1
      (by decide) (by decide) (by decide) (by decide) (by decide) (by decide) (by decide)).2
    [secDataA1] secDataB1 [] (by decide) (by decide) (by decide)

/-- Witness for C4 at a concrete run: the skip-path store stC5 under the
matching-checksum configuration keeps its Document (updated stamp only)
and its section row. -/
theorem c4_witness :
    pagesAtPath (generateEmbeddings cfgSkipA 99 stC5 ([] ++ srcA :: [])) srcA.path =
      [{ pageA1 with meta := "{}", version := stC5.nextId, last_refresh := 99 }] ∧
    sectionsOfPage (generateEmbeddings cfgSkipA 99 stC5 ([] ++ srcA :: [])) pageA1.id =
      sectionsOfPage stC5 pageA1.id :=
  c4_unchanged_source_keeps_sections cfgSkipA 99 stC5 [] [] srcA pageA1
    { checksum := "old", meta := "{}", sections := [] }
    (by decide) (by decide) (by decide) (by decide) (by decide) (by decide) (by decide)

end Mdx
